import Mathlib

/-!
Verification of the peeweeplus JSON (de)serialization engine.

The Python sources are shallowly embedded: JSON-ish values and typed
attribute values are modelled by the inductive type `Val`, external
mappings (Python dictionaries with string keys) and record instances by
association lists, and each fallible Python function by a function into
`Except`.  The embedding covers:

  * `src/peeweeplus/json.py` (namespace `JsonPy`): `value_to_field`,
    `field_to_json`, `iterfields`, `filter_fk_dupes`, `map_fields`,
    `deserialize`, `patch`, `serialize`;
  * `src/peeweeplus/json/deserialization.py` (namespace `Pkg`):
    `_filter` fused with the consuming loop of `deserialize`, exactly
    mirroring the generator interleaving of the source;
  * the `EnumField` of `src/peeweeplus.py` (namespace `EnumNS`);
  * `src/peeweeplus/passwd.py` (namespace `Passwd`).

External collaborators that are not part of this repository (the
`timelib` date parsers, Python's `base64`, the argon2 hasher) are given
concrete executable models, documented at their definitions.
-/

set_option autoImplicit false

deriving instance DecidableEq for Except

/-- JSON-ish values exchanged with the engine, together with the typed
values living on record attributes.  `vnone` is Python's `None`;
`vdatetime`/`vdate`/`vtime` model the typed objects produced by the
external date parsers (coded as natural numbers); `vbytes` models
`bytes` as a list of byte values. -/
inductive Val where
  | vnone
  | vbool (b : Bool)
  | vint (n : Int)
  | vfloat (q : Rat)
  | vstr (s : String)
  | vbytes (bs : List Nat)
  | vdatetime (n : Nat)
  | vdate (n : Nat)
  | vtime (n : Nat)
deriving DecidableEq

/-- Association-list lookup with string keys (first match wins), the
model of Python's `dictionary[key]`. -/
def lookupA {α : Type} : List (String × α) → String → Option α
  | [], _ => none
  | (k, v) :: rest, key => if k = key then some v else lookupA rest key

/-- Model of Python's `dictionary.pop(key)`: returns the value at the
first matching key together with the dictionary with that entry
removed, or `none` when the key is absent. -/
def popA {α : Type} : List (String × α) → String → Option (α × List (String × α))
  | [], _ => none
  | (k, v) :: rest, key =>
    if k = key then some (v, rest)
    else
      match popA rest key with
      | none => none
      | some (v', rest') => some (v', (k, v) :: rest')

/-- The keys of an association list. -/
def keysA {α : Type} (l : List (String × α)) : List String := l.map Prod.fst

/-- Model of Python's `dictionary[key] = value`: replaces the value at
an existing key in place, otherwise appends the new entry (insertion
order is preserved, as for Python dictionaries). -/
def upsertA {α : Type} : List (String × α) → String → α → List (String × α)
  | [], k, v => [(k, v)]
  | (k', v') :: rest, k, v =>
    if k' = k then (k, v) :: rest else (k', v') :: upsertA rest k v

/-- A record instance: a mapping from attribute name to current value. -/
abbrev Record : Type := List (String × Val)

/-- Model of `getattr(record, attribute)`: an unset attribute of a
fresh peewee record reads as `None`. -/
def getattr (r : Record) (a : String) : Val := (lookupA r a).getD .vnone

/-- Model of `setattr(record, attribute, value)`. -/
def setattr (r : Record) (a : String) (v : Val) : Record := upsertA r a v

/-- An external mapping (JSON-ish dictionary). -/
abbrev Dict : Type := List (String × Val)

@[simp] theorem lookupA_nil {α : Type} (k : String) : lookupA ([] : List (String × α)) k = none := rfl

@[simp] theorem lookupA_cons {α : Type} (k key : String) (v : α) (rest : List (String × α)) :
    lookupA ((k, v) :: rest) key = if k = key then some v else lookupA rest key := rfl

@[simp] theorem popA_nil {α : Type} (k : String) : popA ([] : List (String × α)) k = none := rfl

@[simp] theorem keysA_nil {α : Type} : keysA ([] : List (String × α)) = [] := rfl

@[simp] theorem keysA_cons {α : Type} (p : String × α) (rest : List (String × α)) :
    keysA (p :: rest) = p.1 :: keysA rest := rfl

theorem lookupA_eq_none_of_not_mem {α : Type} (l : List (String × α)) (k : String)
    (h : k ∉ keysA l) : lookupA l k = none := by
  induction l with
  | nil => rfl
  | cons p rest ih =>
    obtain ⟨k', v'⟩ := p
    simp only [keysA_cons, List.mem_cons, not_or] at h
    simp only [lookupA_cons, if_neg (Ne.symm h.1), ih h.2]

theorem lookupA_of_mem_nodup {α : Type} (l : List (String × α)) (k : String) (v : α)
    (hmem : (k, v) ∈ l) (hnd : (keysA l).Nodup) : lookupA l k = some v := by
  induction l with
  | nil => simp at hmem
  | cons p rest ih =>
    obtain ⟨k', v'⟩ := p
    simp only [keysA_cons, List.nodup_cons] at hnd
    rcases List.mem_cons.mp hmem with h | h
    · obtain ⟨h1, h2⟩ := Prod.mk.injEq .. ▸ h
      subst h1; subst h2
      simp
    · have hk : k' ≠ k := by
        intro he; subst he
        exact hnd.1 (List.mem_map.mpr ⟨(k', v), h, rfl⟩)
      simp only [lookupA_cons, if_neg hk]
      exact ih h hnd.2


theorem upsertA_append_of_not_mem {α : Type} (l : List (String × α)) (k : String) (v : α)
    (h : k ∉ keysA l) : upsertA l k v = l ++ [(k, v)] := by
  induction l with
  | nil => rfl
  | cons p rest ih =>
    obtain ⟨k', v'⟩ := p
    simp only [keysA_cons, List.mem_cons, not_or] at h
    simp only [upsertA, if_neg (Ne.symm h.1), List.cons_append, List.cons.injEq,
      true_and]
    exact ih h.2

theorem lookupA_upsertA_same {α : Type} (l : List (String × α)) (k : String) (v : α) :
    lookupA (upsertA l k v) k = some v := by
  induction l with
  | nil => simp [upsertA]
  | cons p rest ih =>
    obtain ⟨k', v'⟩ := p
    by_cases hk : k' = k
    · simp [upsertA, hk]
    · simp [upsertA, hk, ih]

theorem lookupA_upsertA_other {α : Type} (l : List (String × α)) (k x : String) (v : α)
    (h : x ≠ k) : lookupA (upsertA l k v) x = lookupA l x := by
  induction l with
  | nil => simp [upsertA, lookupA, if_neg (Ne.symm h)]
  | cons p rest ih =>
    obtain ⟨k', v'⟩ := p
    by_cases hk : k' = k
    · subst hk
      simp [upsertA, lookupA, if_neg (Ne.symm h)]
    · simp only [upsertA, if_neg hk, lookupA_cons]
      by_cases hx : k' = x
      · simp [hx]
      · rw [if_neg hx, if_neg hx, ih]

@[simp] theorem getattr_setattr_same (r : Record) (a : String) (v : Val) :
    getattr (setattr r a v) a = v := by
  unfold getattr setattr
  rw [lookupA_upsertA_same]
  rfl

@[simp] theorem getattr_setattr_other (r : Record) (a x : String) (v : Val) (h : x ≠ a) :
    getattr (setattr r a v) x = getattr r x := by
  unfold getattr setattr
  rw [lookupA_upsertA_other _ _ _ _ h]

/-! ### Model of the external date/time rendering and parsing capability

The source delegates date handling to collaborators outside this
repository: `value.isoformat()` renders a typed date value as a string
and `timelib.strpdatetime` / `strpdate` / `strptime` parse such a
string back.  Typed date values are coded as natural numbers, rendering
is decimal rendering, and parsing is decimal parsing; parsing a
malformed string fails, as the spec assumes for the external parsers. -/

/-- Decimal digit character of a digit value below ten. -/
def digitChar (d : Nat) : Char := Char.ofNat (48 + d)

/-- Digit value of a decimal digit character. -/
def charVal (c : Char) : Nat := c.toNat - 48

/-- Parses a nonempty all-digit character list as a natural number
(most significant digit first). -/
def decodeDigits (cs : List Char) : Option Nat :=
  if cs ≠ [] ∧ cs.all Char.isDigit then
    some (Nat.ofDigits 10 ((cs.map charVal).reverse))
  else
    none

/-- Modelled external capability: `isoformat` of a typed date value. -/
def isoEncode (n : Nat) : String :=
  if n = 0 then "0" else String.mk (((Nat.digits 10 n).map digitChar).reverse)

/-- Modelled external capability: the `timelib` parsers
(`strpdatetime`, `strpdate`, `strptime`); fails on malformed input. -/
def isoDecode (s : String) : Option Nat := decodeDigits s.data

theorem charVal_digitChar (d : Nat) (hd : d < 10) : charVal (digitChar d) = d := by
  interval_cases d <;> decide

theorem isDigit_digitChar (d : Nat) (hd : d < 10) : (digitChar d).isDigit = true := by
  interval_cases d <;> decide

theorem isoDecode_isoEncode (n : Nat) : isoDecode (isoEncode n) = some n := by
  by_cases h0 : n = 0
  · subst h0; decide
  · unfold isoEncode
    rw [if_neg h0]
    unfold isoDecode decodeDigits
    have hdata : (String.mk (((Nat.digits 10 n).map digitChar).reverse)).data
        = ((Nat.digits 10 n).map digitChar).reverse := rfl
    rw [hdata]
    have hne : Nat.digits 10 n ≠ [] := Nat.digits_ne_nil_iff_ne_zero.mpr h0
    have hddig : ∀ c ∈ ((Nat.digits 10 n).map digitChar).reverse, c.isDigit = true := by
      intro c hc
      rw [List.mem_reverse] at hc
      obtain ⟨d, hd, rfl⟩ := List.mem_map.mp hc
      exact isDigit_digitChar d (Nat.digits_lt_base (by norm_num) hd)
    rw [if_pos ⟨by simpa using hne, List.all_eq_true.mpr (fun c hc => hddig c hc)⟩]
    congr 1
    have hmapmap : (((Nat.digits 10 n).map digitChar).reverse.map charVal).reverse
        = (Nat.digits 10 n).map (fun d => charVal (digitChar d)) := by
      rw [← List.map_reverse, List.reverse_reverse, List.map_map]
      rfl
    rw [hmapmap]
    have hid : (Nat.digits 10 n).map (fun d => charVal (digitChar d)) = Nat.digits 10 n := by
      conv_rhs => rw [← List.map_id (Nat.digits 10 n)]
      apply List.map_congr_left
      intro d hd
      simp only [id_eq]
      exact charVal_digitChar d (Nat.digits_lt_base (by norm_num) hd)
    rw [hid, Nat.ofDigits_digits]

/-! ### Model of Python's `base64` module

`b64encode` maps a byte string to its base64 encoding (again a byte
string, as in Python), `b64decode` inverts it and fails on input that
is not valid base64. -/

/-- The base64 alphabet, as byte values. -/
def b64Char (i : Nat) : Nat :=
  if i < 26 then 65 + i
  else if i < 52 then 97 + (i - 26)
  else if i < 62 then 48 + (i - 52)
  else if i = 62 then 43
  else 47

/-- Modelled external capability: `base64.b64encode` on byte lists. -/
def b64encode : List Nat → List Nat
  | [] => []
  | [a] => [b64Char (a / 4), b64Char (a % 4 * 16), 61, 61]
  | [a, b] => [b64Char (a / 4), b64Char (a % 4 * 16 + b / 16), b64Char (b % 16 * 4), 61]
  | a :: b :: c :: rest =>
    b64Char (a / 4) :: b64Char (a % 4 * 16 + b / 16) :: b64Char (b % 16 * 4 + c / 64) ::
      b64Char (c % 64) :: b64encode rest

/-- Value of a base64 alphabet byte, `none` for bytes outside the alphabet. -/
def b64Val (c : Nat) : Option Nat :=
  if 65 ≤ c ∧ c ≤ 90 then some (c - 65)
  else if 97 ≤ c ∧ c ≤ 122 then some (c - 97 + 26)
  else if 48 ≤ c ∧ c ≤ 57 then some (c - 48 + 52)
  else if c = 43 then some 62
  else if c = 47 then some 63
  else none

/-- Modelled external capability: `base64.b64decode`; `none` models the
`binascii.Error` (a `ValueError`) raised on malformed input. -/
def b64decode : List Nat → Option (List Nat)
  | [] => some []
  | a :: b :: c :: d :: rest =>
    match b64Val a, b64Val b with
    | some va, some vb =>
      if c = 61 ∧ d = 61 then
        if rest = [] then some [va * 4 + vb / 16] else none
      else if d = 61 then
        match b64Val c with
        | some vc => if rest = [] then some [va * 4 + vb / 16, vb % 16 * 16 + vc / 4] else none
        | none => none
      else
        match b64Val c, b64Val d, b64decode rest with
        | some vc, some vd, some tl =>
          some ((va * 4 + vb / 16) :: (vb % 16 * 16 + vc / 4) :: (vc % 4 * 64 + vd) :: tl)
        | _, _, _ => none
    | _, _ => none
  | _ => none

/-- Byte values of a string, for `b64decode` applied to a string. -/
def strBytes (s : String) : List Nat := s.data.map Char.toNat

/-! ### Field descriptors -/

/-- The closed set of field-descriptor kinds handled by the conversion
code (`peewee` field classes).  `primaryKey` and `foreignKey` extend
`IntegerField` in peewee, which the conversion dispatch below takes
into account; `char` stands for `CharField` and any other field class
without a dedicated conversion branch. -/
inductive Kind where
  | boolean
  | integer
  | primaryKey
  | foreignKey
  | float
  | decimal
  | datetime
  | date
  | time
  | blob
  | char
deriving DecidableEq

/-- A field descriptor: the attributes of a `peewee.Field` instance the
engine reads (`db_column`, `null`, `default`) together with its class
(`kind`). -/
structure Fld where
  kind : Kind
  db_column : String
  null : Bool
  default : Option Val
deriving DecidableEq

/-- Errors of the conversion helpers: `nullError` models the internal
`NullError`, `valueError` a `ValueError` (including failed parses) and
`typeError` a `TypeError`. -/
inductive CErr where
  | nullError
  | valueError
  | typeError
deriving DecidableEq

/-- Model of Python's `int(string)`: an optional sign followed by
decimal digits. -/
def pyIntParse (s : String) : Option Int :=
  match s.data with
  | '-' :: rest => (decodeDigits rest).map (fun n => -(n : Int))
  | '+' :: rest => (decodeDigits rest).map (fun n => (n : Int))
  | cs => (decodeDigits cs).map (fun n => (n : Int))

/-- Model of Python's `float(string)` on the common decimal forms
`[sign]digits[.digits]`. -/
def pyFloatParse (s : String) : Option Rat :=
  let core : List Char → Option Rat := fun cs =>
    let intPart := cs.takeWhile (fun c => c ≠ '.')
    let rest := cs.dropWhile (fun c => c ≠ '.')
    match rest with
    | [] => (decodeDigits intPart).map (fun n => (n : Rat))
    | _ :: frac =>
      match decodeDigits intPart, decodeDigits frac with
      | some a, some b => some ((a : Rat) + (b : Rat) / ((10 : Rat) ^ frac.length))
      | _, _ => none
  match s.data with
  | '-' :: rest => (core rest).map (fun q => -q)
  | '+' :: rest => core rest
  | cs => core cs

/-- Model of Python's `int(value)` as applied by `value_to_field` to a
non-null value: truncating conversion from floats, parse from strings
and byte strings, identity on integers, 0/1 on booleans; `TypeError`
otherwise. -/
def pyInt : Val → Except CErr Val
  | .vbool b => .ok (.vint (if b then 1 else 0))
  | .vint n => .ok (.vint n)
  | .vfloat q => .ok (.vint (q.num.tdiv (q.den : Int)))
  | .vstr s =>
    match pyIntParse s with
    | some n => .ok (.vint n)
    | none => .error .valueError
  | .vbytes bs =>
    match pyIntParse (String.mk (bs.map Char.ofNat)) with
    | some n => .ok (.vint n)
    | none => .error .valueError
  | _ => .error .typeError

/-- Model of Python's `float(value)` on a non-null value. -/
def pyFloat : Val → Except CErr Val
  | .vbool b => .ok (.vfloat (if b then 1 else 0))
  | .vint n => .ok (.vfloat (n : Rat))
  | .vfloat q => .ok (.vfloat q)
  | .vstr s =>
    match pyFloatParse s with
    | some q => .ok (.vfloat q)
    | none => .error .valueError
  | _ => .error .typeError

/-- Model of Python's `str.startswith(pre)` (structural, over the
character list). -/
def strStartsWith (s pre : String) : Bool := pre.data.isPrefixOf s.data

/-- Model of Python's `str.endswith(post)`. -/
def strEndsWith (s post : String) : Bool := post.data.reverse.isPrefixOf s.data.reverse

/-- Model of Python's suffix-removing slice `s[:-n]`. -/
def strDropRight (s : String) (n : Nat) : String := String.mk (s.data.take (s.data.length - n))

/-! ### Embedding of `src/peeweeplus/json.py`

`value_to_field` and `field_to_json` below also embed the literally
identical functions of `src/peeweeplus.py`. -/

namespace JsonPy

/-- Embedding of `value_to_field` (src/peeweeplus/json.py, lines
172-212; identical in src/peeweeplus.py, lines 219-259): converts an
external value for the provided field, raising `NullError` for a null
on a non-nullable field and dispatching on the field class otherwise.
`primaryKey` and `foreignKey` fields reach the `IntegerField` branch of
the `isinstance` chain. -/
def value_to_field (value : Val) (field : Fld) : Except CErr Val :=
  match value with
  | .vnone => if field.null then .ok .vnone else .error .nullError
  | v =>
    match field.kind with
    | .boolean =>
      match v with
      | .vbool b => .ok (.vbool b)
      | .vint n => .ok (.vbool (decide (n ≠ 0)))
      | _ => .error .valueError
    | .integer => pyInt v
    | .primaryKey => pyInt v
    | .foreignKey => pyInt v
    | .float => pyFloat v
    | .decimal => pyFloat v
    | .datetime =>
      match v with
      | .vdatetime m => .ok (.vdatetime m)
      | .vstr s =>
        match isoDecode s with
        | some m => .ok (.vdatetime m)
        | none => .error .valueError
      | _ => .error .typeError
    | .date =>
      match v with
      | .vdate m => .ok (.vdate m)
      | .vstr s =>
        match isoDecode s with
        | some m => .ok (.vdate m)
        | none => .error .valueError
      | _ => .error .typeError
    | .time =>
      match v with
      | .vtime m => .ok (.vtime m)
      | .vstr s =>
        match isoDecode s with
        | some m => .ok (.vtime m)
        | none => .error .valueError
      | _ => .error .typeError
    | .blob =>
      match v with
      | .vbytes bs => .ok (.vbytes bs)
      | .vstr s =>
        match b64decode (strBytes s) with
        | some bs => .ok (.vbytes bs)
        | none => .error .valueError
      | _ => .error .typeError
    | .char => .ok v

/-- Embedding of `field_to_json` (src/peeweeplus/json.py, lines
150-169; identical up to the EnumField branch in src/peeweeplus.py):
converts a field's stored value into JSON-ish data.  A foreign-key
value that is not a record instance passes through (the
`AttributeError` branch of the source); none of the modelled values is
a record instance. -/
def field_to_json (field : Fld) (value : Val) : Except CErr Val :=
  match value with
  | .vnone => .ok .vnone
  | v =>
    match field.kind with
    | .foreignKey => .ok v
    | .decimal => pyFloat v
    | .datetime =>
      match v with
      | .vdatetime m => .ok (.vstr (isoEncode m))
      | .vdate m => .ok (.vstr (isoEncode m))
      | .vtime m => .ok (.vstr (isoEncode m))
      | _ => .error .typeError
    | .date =>
      match v with
      | .vdatetime m => .ok (.vstr (isoEncode m))
      | .vdate m => .ok (.vstr (isoEncode m))
      | .vtime m => .ok (.vstr (isoEncode m))
      | _ => .error .typeError
    | .time =>
      match v with
      | .vdatetime m => .ok (.vstr (isoEncode m))
      | .vdate m => .ok (.vstr (isoEncode m))
      | .vtime m => .ok (.vstr (isoEncode m))
      | _ => .error .typeError
    | .blob =>
      match v with
      | .vbytes bs => .ok (.vbytes (b64encode bs))
      | _ => .error .typeError
    | _ => .ok v

/-- Embedding of `iterfields` (src/peeweeplus/json.py, lines 82-95):
the model's field-valued attributes in `dir(model)` order, skipping
protected attributes and, per flags, primary-key and foreign-key
fields.  The input list stands for the `(attribute, field)` pairs found
by `dir`/`getattr` introspection. -/
def iterfields (model : List (String × Fld)) (protected_ primary_key foreign_keys : Bool) :
    List (String × Fld) :=
  model.filter (fun af =>
    (protected_ || !strStartsWith af.1 "_") &&
    (primary_key || !decide (af.2.kind = Kind.primaryKey)) &&
    (foreign_keys || !decide (af.2.kind = Kind.foreignKey)))

/-- The `fk_fields` dictionary accumulated by `filter_fk_dupes`:
attribute-keyed, insertion ordered, later bindings overwriting. -/
def fk_dict (fields : List (String × Fld)) : List (String × Fld) :=
  fields.foldl
    (fun m af => if af.2.kind = Kind.foreignKey then upsertA m af.1 af.2 else m) []

/-- The drop test of `filter_fk_dupes`: an `_id`-suffixed foreign-key
attribute whose base attribute is also a foreign key with the same
`db_column` is a peewee-generated shadow and is skipped. -/
def fk_dropped (fk : List (String × Fld)) (af : String × Fld) : Bool :=
  strEndsWith af.1 "_id" &&
    (match lookupA fk (strDropRight af.1 3) with
     | some alt => decide (alt.db_column = af.2.db_column)
     | none => false)

/-- Embedding of `filter_fk_dupes` (src/peeweeplus/json.py, lines
98-120; identical in src/peeweeplus.py, lines 168-190): yields non
foreign-key entries as encountered, then the foreign-key entries minus
the peewee-generated `_id` shadows. -/
def filter_fk_dupes (fields : List (String × Fld)) : List (String × Fld) :=
  fields.filter (fun af => !decide (af.2.kind = Kind.foreignKey)) ++
    (fk_dict fields).filter (fun af => !fk_dropped (fk_dict fields) af)

/-- Embedding of `map_fields` (src/peeweeplus/json.py, lines 123-138):
the dictionary from `db_column` to `(attribute, field)`, built over
`iterfields` and, when foreign keys are included, `filter_fk_dupes`. -/
def map_fields (model : List (String × Fld)) (protected_ primary_key foreign_keys : Bool) :
    List (String × (String × Fld)) :=
  if foreign_keys then
    (filter_fk_dupes (iterfields model protected_ primary_key true)).foldl
      (fun m af => upsertA m af.2.db_column af) []
  else
    (iterfields model protected_ primary_key false).foldl
      (fun m af => upsertA m af.2.db_column af) []

/-- The exceptions `deserialize` and `patch` can surface.  The
`nullError` constructor stands for the internal `NullError` signal
escaping to the caller; the theorems show the source always translates
it to `FieldNotNullable` instead.  `model` is the record type's name. -/
inductive JExc where
  | nullError
  | fieldNotNullable (model attr : String) (field : Fld)
  | fieldValueError (model attr : String) (field : Fld) (value : Val)
deriving DecidableEq

/-- The per-field loop of `deserialize` (src/peeweeplus/json.py, lines
224-241): pop the field's key, on absence raise `FieldNotNullable` for
a required field without default, otherwise convert and assign.  The
final dictionary is returned alongside the record to expose the
consumption of the input mapping. -/
def deserialize_aux (mname : String) :
    List (String × (String × Fld)) → Dict → Record → Except JExc (Record × Dict)
  | [], dict, record => .ok (record, dict)
  | (db_column, af) :: rest, dict, record =>
    match popA dict db_column with
    | none =>
      if !af.2.null && decide (af.2.default = none) then
        .error (.fieldNotNullable mname af.1 af.2)
      else
        deserialize_aux mname rest dict record
    | some (value, dict') =>
      match value_to_field value af.2 with
      | .ok fv => deserialize_aux mname rest dict' (setattr record af.1 fv)
      | .error .nullError => .error (.fieldNotNullable mname af.1 af.2)
      | .error _ => .error (.fieldValueError mname af.1 af.2 value)

/-- Embedding of `deserialize` (src/peeweeplus/json.py, lines 215-242):
creates a record from the provided JSON-ish dictionary, consuming it.
`mname` is the record type's name, `model` its schema. -/
def deserialize (mname : String) (model : List (String × Fld)) (dict : Dict)
    (protected_ foreign_keys : Bool) : Except JExc (Record × Dict) :=
  deserialize_aux mname (map_fields model protected_ true foreign_keys) dict []

/-- The per-field loop of `patch` (src/peeweeplus/json.py, lines
253-267): like `deserialize_aux` but an absent key is skipped. -/
def patch_aux (mname : String) :
    List (String × (String × Fld)) → Dict → Record → Except JExc (Record × Dict)
  | [], dict, record => .ok (record, dict)
  | (db_column, af) :: rest, dict, record =>
    match popA dict db_column with
    | none => patch_aux mname rest dict record
    | some (value, dict') =>
      match value_to_field value af.2 with
      | .ok fv => patch_aux mname rest dict' (setattr record af.1 fv)
      | .error .nullError => .error (.fieldNotNullable mname af.1 af.2)
      | .error _ => .error (.fieldValueError mname af.1 af.2 value)

/-- Embedding of `patch` (src/peeweeplus/json.py, lines 245-268):
patches the given record with the provided dictionary, consuming it. -/
def patch (mname : String) (model : List (String × Fld)) (record : Record) (dict : Dict)
    (protected_ foreign_keys : Bool) : Except JExc (Record × Dict) :=
  patch_aux mname (map_fields model protected_ true foreign_keys) dict record

/-- The per-field loop of `serialize` (src/peeweeplus/json.py, lines
281-289): skip ignored fields, read the attribute, convert outbound and
insert under the field's `db_column`.  `ignore_strs` models the string
entries of the `ignore` collection (matched against both `db_column`
and the attribute name, as in the source); `ignore_kinds` its field
classes as extracted by `filter_fields`. -/
def serialize_aux (record : Record) (ignore_strs : List String) (ignore_kinds : List Kind)
    (null : Bool) :
    List (String × (String × Fld)) → Dict → Except CErr Dict
  | [], dict => .ok dict
  | (db_column, af) :: rest, dict =>
    if db_column ∈ ignore_strs || af.1 ∈ ignore_strs || af.2.kind ∈ ignore_kinds then
      serialize_aux record ignore_strs ignore_kinds null rest dict
    else
      let value := getattr record af.1
      if value ≠ .vnone ∨ null then
        match field_to_json af.2 value with
        | .ok j => serialize_aux record ignore_strs ignore_kinds null rest
            (upsertA dict af.2.db_column j)
        | .error e => .error e
      else
        serialize_aux record ignore_strs ignore_kinds null rest dict

/-- Embedding of `serialize` (src/peeweeplus/json.py, lines 271-291):
returns a JSON-ish dictionary with the record's values. -/
def serialize (model : List (String × Fld)) (record : Record) (ignore_strs : List String)
    (ignore_kinds : List Kind) (null protected_ primary_key foreign_keys : Bool) :
    Except CErr Dict :=
  serialize_aux record ignore_strs ignore_kinds null
    (map_fields model protected_ primary_key foreign_keys) []

end JsonPy

/-! ### Embedding of `src/peeweeplus/json/deserialization.py` -/

namespace Pkg

/-- Modelled from the spec: `json_key` of `peeweeplus/json/misc.py` is
not under src/; per the spec's data model the external key of a field
is its `db_column`. -/
def json_key (field : Fld) : String := field.db_column

/-- Modelled from the spec: `json_fields` of `peeweeplus/json/misc.py`
is not under src/.  Per spec section 4.1 the catalog excludes protected
attributes, excludes autogenerated primary-key fields (the call site
passes `autofields=False`), excludes foreign keys unless `fk_fields`,
and de-duplicates foreign-key `_id` shadows. -/
def json_fields (model : List (String × Fld)) (fk_fields : Bool) : List (String × Fld) :=
  if fk_fields then
    JsonPy.filter_fk_dupes (model.filter (fun af =>
      !strStartsWith af.1 "_" && !decide (af.2.kind = Kind.primaryKey)))
  else
    model.filter (fun af =>
      !strStartsWith af.1 "_" && !decide (af.2.kind = Kind.primaryKey) &&
        !decide (af.2.kind = Kind.foreignKey))

/-- Modelled from the spec: the `_CONVERTER` table of
`deserialization.py` dispatches to parsers in
`peeweeplus/json/parsers.py`, which is not under src/; the conversion
rules follow the spec's section 4.2 table (`parse_bool` accepts a bool
or the integers 0/1; blob accepts bytes or base64 text; dates parse
from strings).  `check_null=True` raises `NullError` for a null on a
non-nullable field. -/
def converter (field : Fld) (value : Val) : Except CErr Val :=
  match value with
  | .vnone => if field.null then .ok .vnone else .error .nullError
  | v =>
    match field.kind with
    | .boolean =>
      match v with
      | .vbool b => .ok (.vbool b)
      | .vint n =>
        if n = 0 then .ok (.vbool false)
        else if n = 1 then .ok (.vbool true)
        else .error .valueError
      | _ => .error .valueError
    | .integer => pyInt v
    | .primaryKey => pyInt v
    | .foreignKey => pyInt v
    | .float => pyFloat v
    | .decimal => pyFloat v
    | .datetime =>
      match v with
      | .vdatetime m => .ok (.vdatetime m)
      | .vstr s =>
        match isoDecode s with
        | some m => .ok (.vdatetime m)
        | none => .error .valueError
      | _ => .error .typeError
    | .date =>
      match v with
      | .vdate m => .ok (.vdate m)
      | .vstr s =>
        match isoDecode s with
        | some m => .ok (.vdate m)
        | none => .error .valueError
      | _ => .error .typeError
    | .time =>
      match v with
      | .vtime m => .ok (.vtime m)
      | .vstr s =>
        match isoDecode s with
        | some m => .ok (.vtime m)
        | none => .error .valueError
      | _ => .error .typeError
    | .blob =>
      match v with
      | .vbytes bs => .ok (.vbytes bs)
      | .vstr s =>
        match b64decode (strBytes s) with
        | some bs => .ok (.vbytes bs)
        | none => .error .valueError
      | _ => .error .typeError
    | .char => .ok v

/-- The exceptions of the package deserializer
(`peeweeplus/exceptions.py` declares them; their payloads follow the
raise sites in `deserialization.py`).  `model` is the record type's
name. -/
inductive PkgErr where
  | missingKey (model attr : String) (field : Fld) (key : String)
  | invalidKeys (keys : List String)
  | fieldNotNullable (model attr : String) (field : Fld) (key : String)
  | fieldValueError (model attr : String) (field : Fld) (key : String) (value : Val)
  | nullError
deriving DecidableEq

/-- The interleaved run of the `_filter` generator (lines 34-74 of
deserialization.py) with the consuming loop of `deserialize` (lines
95-107): fields are processed in catalog order; a surviving field's
key, present or absent, is recorded in `processed`; an absent key on a
full deserialize of a required, default-less field raises
`MissingKeyError`; a present value is converted (with `NullError`
translated to `FieldNotNullable`) and assigned.  The `processed` list
is returned for the strict check that the generator performs after its
loop. -/
def deserialize_aux (mname : String) (dict : Dict) (patch : Bool) (allow deny : List String) :
    List (String × Fld) → List String → Record → Except PkgErr (Record × List String)
  | [], processed, record => .ok (record, processed)
  | (attr, field) :: rest, processed, record =>
    if !allow.isEmpty && !allow.contains (json_key field) then
      deserialize_aux mname dict patch allow deny rest processed record
    else if !deny.isEmpty && deny.contains (json_key field) then
      deserialize_aux mname dict patch allow deny rest processed record
    else
      match lookupA dict (json_key field) with
      | none =>
        if !patch && decide (field.default = none) && !field.null then
          .error (.missingKey mname attr field (json_key field))
        else
          deserialize_aux mname dict patch allow deny rest (processed ++ [json_key field]) record
      | some value =>
        match converter field value with
        | .ok fv => deserialize_aux mname dict patch allow deny rest
            (processed ++ [json_key field]) (setattr record attr fv)
        | .error .nullError => .error (.fieldNotNullable mname attr field (json_key field))
        | .error _ => .error (.fieldValueError mname attr field (json_key field) value)

/-- The survival test of `_filter`: a catalog field is skipped when its
key is excluded by the `allow`/`deny` sets. -/
def survives (allow deny : List String) (field : Fld) : Bool :=
  !(!allow.isEmpty && !allow.contains (json_key field)) &&
    !(!deny.isEmpty && deny.contains (json_key field))

/-- The strict-mode invalid-key collection of `_filter`: the dictionary
keys excluded by `allow`/`deny` (collected before the loop) together
with the keys not processed by any surviving catalog field (collected
after it); the source unions the two sets. -/
def invalid_keys_of (dict : Dict) (allow deny : List String) (processed : List String) :
    List String :=
  (keysA dict).filter (fun k =>
    (!allow.isEmpty && !allow.contains k) || (!deny.isEmpty && deny.contains k) ||
      !decide (k ∈ processed))

/-- Embedding of `deserialize` (deserialization.py, lines 77-108).  The
source dispatches on the target: a `Model` instance means patching, a
`Model` subclass means construction; the embedding takes the resolved
`patch` flag and initial record (`model()` is the empty record). -/
def deserialize (mname : String) (model : List (String × Fld)) (record₀ : Record)
    (patch : Bool) (dict : Dict) (allow deny : List String) (fk_fields strict : Bool) :
    Except PkgErr Record :=
  match deserialize_aux mname dict patch allow deny (json_fields model fk_fields) [] record₀ with
  | .error e => .error e
  | .ok (record, processed) =>
    if strict then
      if (invalid_keys_of dict allow deny processed).isEmpty then .ok record
      else .error (.invalidKeys (invalid_keys_of dict allow deny processed))
    else .ok record

end Pkg

/-! ### Embedding of `EnumField` (src/peeweeplus.py, lines 417-477)

The value set is modelled in the plain-value shape: `__init__` stores
`set(values)` and only replaces it by an `{item.value: item}`
dictionary when every member has a `.value` attribute; plain scalar
values (and `None`) have none, so for the value sets treated here
`self.values` stays a set of `Option String` members.  Named constants
(`enum.Enum` members) appear as inputs to `db_value`, which unwraps
their `.value` under `suppress(AttributeError)`. -/

namespace EnumNS

/-- An input to `db_value`: either a raw scalar (or `None`), or a named
constant whose `.value` attribute holds the underlying scalar. -/
inductive EnumInput where
  | raw (v : Option String)
  | member (name : String) (v : Option String)
deriving DecidableEq

/-- The `value = value.value` step of `db_value` under
`suppress(AttributeError)`: unwraps a named constant, leaves a raw
value unchanged. -/
def underlying : EnumInput → Option String
  | .raw v => v
  | .member _ v => v

/-- The error raised on a value outside the declared domain. -/
inductive EnumErr where
  | invalidEnumerationValue (v : Option String)
deriving DecidableEq

/-- Embedding of the `null` property (lines 445-448): nullability is
derived as `any(value is None for value in self.values)`. -/
def null (values : List (Option String)) : Bool :=
  values.any (fun v => decide (v = none))

/-- Embedding of the `max_length` property (lines 434-437):
`max(len(value) for value in self.values if value is not None)`; the
`max` of an empty sequence raises, modelled as `none`. -/
def max_length (values : List (Option String)) : Option Nat :=
  match values.filterMap id with
  | [] => none
  | s :: rest => some (rest.foldl (fun m t => Nat.max m t.length) s.length)

/-- Embedding of `db_value` (lines 456-464): unwrap a named constant's
underlying value, accept it if it is in the declared set, raise
`InvalidEnumerationValue` otherwise. -/
def db_value (values : List (Option String)) (value : EnumInput) :
    Except EnumErr (Option String) :=
  let v := underlying value
  if v ∈ values then .ok v else .error (.invalidEnumerationValue v)

/-- Embedding of `python_value` (lines 466-476) in the plain-value
shape: `self.values[value]` subscripts a set and raises `TypeError`,
whose handler accepts the value if it is in the set and raises
`InvalidEnumerationValue` otherwise. -/
def python_value (values : List (Option String)) (v : Option String) :
    Except EnumErr (Option String) :=
  if v ∈ values then .ok v else .error (.invalidEnumerationValue v)

end EnumNS

/-! ### Embedding of `src/peeweeplus/passwd.py` -/

namespace Passwd

/-- A Python object reaching the password accessor: a string (plaintext
or hash text) or the field's `PasswordHasher` instance. -/
inductive PyObj where
  | pstr (s : String)
  | hasherObj
deriving DecidableEq

/-- Exceptions of the password write path: argon2's
`VerifyMismatchError` (a subclass of `VerificationError`), its other
`VerificationError`s, Python's `AttributeError` and `TypeError`, and
the module's `PasswordTooShortError(actual, minimum)`. -/
inductive PwErr where
  | verifyMismatch
  | verification
  | attributeError
  | typeError
  | passwordTooShort (actual minimum : Nat)
deriving DecidableEq

/-- Modelled from the spec: the external argon2 capability
`hash(plaintext) -> string`.  Hashes carry a recognizable format
marker. -/
def hashString (s : String) : String := "$argon2$" ++ s

/-- Modelled from the spec: the structural hash-format check of the
external argon2 capability. -/
def looksLikeHash (s : String) : Bool := strStartsWith s "$argon2$"

/-- Modelled from the spec: `PasswordHasher.verify(hash, password)` of
the external argon2 capability: a malformed hash raises a
`VerificationError`; a well-formed hash verifies the password, raising
`VerifyMismatchError` on mismatch. -/
def hasherVerify (hash pw : String) : Except PwErr Bool :=
  if looksLikeHash hash then
    if hash = hashString pw then .ok true else .error .verifyMismatch
  else
    .error .verification

/-- Python attribute dispatch for `receiver.verify(arg, pw)`: only the
hasher object has a `verify` method (a plain string raises
`AttributeError`); the hasher's `verify` requires a string hash
argument. -/
def callVerify (receiver : PyObj) (arg : PyObj) (pw : String) : Except PwErr Bool :=
  match receiver with
  | .hasherObj =>
    match arg with
    | .pstr s => hasherVerify s pw
    | .hasherObj => .error .typeError
  | .pstr _ => .error .attributeError

/-- Embedding of `is_hash` (src/peeweeplus/passwd.py, lines 17-25),
with the parameter names of its signature
`is_hash(value, hasher=PASSWORD_HASHER)`: evaluates
`hasher.verify(value, '')`, translating `VerifyMismatchError` to true
and `VerificationError` to false; any other exception propagates. -/
def is_hash (value : PyObj) (hasher : PyObj) : Except PwErr Bool :=
  match callVerify hasher value "" with
  | .ok b => .ok b
  | .error .verifyMismatch => .ok true
  | .error .verification => .ok false
  | .error e => .error e

/-- The length of a Python string. -/
def pyLen : PyObj → Except PwErr Nat
  | .pstr s => .ok s.length
  | .hasherObj => .error .typeError

/-- Embedding of `Argon2FieldAccessor.__set__` (src/peeweeplus/passwd.py,
lines 60-68).  The call site passes `is_hash(self.field.hasher, value)`,
so positionally the accessor's hasher binds the parameter named `value`
and the incoming value binds the parameter named `hasher`, exactly as
in the source. -/
def argon2_set (field_hasher : PyObj) (value : Option PyObj) : Except PwErr (Option PyObj) :=
  match value with
  | none => .ok none
  | some v =>
    match is_hash field_hasher v with
    | .error e => .error e
    | .ok true => .ok (some v)
    | .ok false =>
      match pyLen v with
      | .error e => .error e
      | .ok len =>
        if len < 8 then .error (.passwordTooShort len 8)
        else
          match v with
          | .pstr s => .ok (some (.pstr (hashString s)))
          | .hasherObj => .error .typeError

end Passwd

/-! ### Example schemas and fixtures used by the theorems -/

/-- A required boolean field with external key `flag`. -/
def exBool : Fld := ⟨Kind.boolean, "flag", false, none⟩

/-- A required character field with external key `name`. -/
def exChar : Fld := ⟨Kind.char, "name", false, none⟩

/-- A nullable character field with external key `note`. -/
def exCharN : Fld := ⟨Kind.char, "note", true, none⟩

/-- A required integer field with external key `num`. -/
def exInt : Fld := ⟨Kind.integer, "num", false, none⟩

/-- A required datetime field with external key `ts`. -/
def exDT : Fld := ⟨Kind.datetime, "ts", false, none⟩

/-- A required blob field with external key `data`. -/
def exBlob : Fld := ⟨Kind.blob, "data", false, none⟩

/-- A foreign-key field with external key `owner`. -/
def exFk : Fld := ⟨Kind.foreignKey, "owner", false, none⟩

/-- The enumeration value set of the spec's example, with a null member. -/
def exEnumVals : List (Option String) := [some "red", some "green", some "blue", none]

/-- The enumeration value set of the spec's example, without a null member. -/
def exEnumVals3 : List (Option String) := [some "red", some "green", some "blue"]

/-! ### C2 — password-hash field write path -/

/-- C2: evaluation of the password write path at the claim's inputs.
The claim describes `PasswordTooShortError(5, 8)` for `"short"`, a
stored hash for `"longenough"`, and unchanged storage for an
already-hashed value; the code instead raises `AttributeError` for
every non-null assignment, because the call site
`is_hash(self.field.hasher, value)` binds the hasher to the parameter
named `value` and the incoming string to the parameter named `hasher`,
so `hasher.verify(value, '')` invokes `.verify` on the incoming string
itself. -/
theorem c2_password_write_path_eval :
    Passwd.argon2_set .hasherObj (some (.pstr "short")) = .error .attributeError ∧
    Passwd.argon2_set .hasherObj (some (.pstr "longenough")) = .error .attributeError ∧
    Passwd.argon2_set .hasherObj (some (.pstr (Passwd.hashString "longenough"))) =
      .error .attributeError :=
  ⟨rfl, rfl, rfl⟩

/-! ### C9 — enumeration domain checks -/

/-- C9: a value outside the declared value set raises
`InvalidEnumerationValue` both when writing toward storage (`db_value`)
and when reading a stored value back (`python_value`); a raw value
inside the set, or a named constant whose underlying value is inside
the set, is accepted in the write direction. -/
theorem c9_enum_domain (values : List (Option String)) (v : Option String) :
    (v ∉ values →
      EnumNS.db_value values (.raw v) = .error (.invalidEnumerationValue v) ∧
      EnumNS.python_value values v = .error (.invalidEnumerationValue v)) ∧
    (v ∈ values → EnumNS.db_value values (.raw v) = .ok v) ∧
    (∀ nm : String, v ∈ values → EnumNS.db_value values (.member nm v) = .ok v) := by
  refine ⟨fun hnot => ⟨?_, ?_⟩, fun hmem => ?_, fun nm hmem => ?_⟩
  · simp [EnumNS.db_value, EnumNS.underlying, hnot]
  · simp [EnumNS.python_value, hnot]
  · simp [EnumNS.db_value, EnumNS.underlying, hmem]
  · simp [EnumNS.db_value, EnumNS.underlying, hmem]

/-- Witness for C9 at the spec's example set: `"purple"` is rejected in
both directions, `"red"` and a named constant `RED` with underlying
value `"red"` are accepted on write. -/
theorem c9_enum_domain_witness :
    (EnumNS.db_value exEnumVals3 (.raw (some "purple")) =
        .error (.invalidEnumerationValue (some "purple")) ∧
      EnumNS.python_value exEnumVals3 (some "purple") =
        .error (.invalidEnumerationValue (some "purple"))) ∧
    EnumNS.db_value exEnumVals3 (.raw (some "red")) = .ok (some "red") ∧
    EnumNS.db_value exEnumVals3 (.member "RED" (some "red")) = .ok (some "red") :=
  ⟨(c9_enum_domain exEnumVals3 (some "purple")).1 (by decide),
   (c9_enum_domain exEnumVals3 (some "red")).2.1 (by decide),
   (c9_enum_domain exEnumVals3 (some "red")).2.2 "RED" (by decide)⟩

/-! ### C8 — enumeration self-derived nullability and width -/

theorem foldl_max_length (l : List String) (init : Nat) :
    init ≤ l.foldl (fun m t => Nat.max m t.length) init ∧
    (∀ t ∈ l, t.length ≤ l.foldl (fun m t => Nat.max m t.length) init) ∧
    (l.foldl (fun m t => Nat.max m t.length) init = init ∨
      ∃ t ∈ l, l.foldl (fun m t => Nat.max m t.length) init = t.length) := by
  induction l generalizing init with
  | nil => simp
  | cons s rest ih =>
    have h := ih (Nat.max init s.length)
    simp only [List.foldl_cons]
    refine ⟨le_trans (Nat.le_max_left _ _) h.1, fun t ht => ?_, ?_⟩
    · rcases List.mem_cons.mp ht with h1 | h1
      · subst h1; exact le_trans (Nat.le_max_right _ _) h.1
      · exact h.2.1 t h1
    · rcases h.2.2 with h1 | ⟨t, ht, h1⟩
      · by_cases hc : init ≤ s.length
        · right
          exact ⟨s, List.mem_cons_self s rest, by rw [h1]; exact Nat.max_eq_right hc⟩
        · left
          rw [h1]
          exact Nat.max_eq_left (le_of_not_le hc)
      · right
        exact ⟨t, List.mem_cons_of_mem s ht, h1⟩

/-- C8: an enumeration field derives its descriptors from its value
set: it is nullable exactly when the set has a null member, and (as
soon as some non-null member exists) its maximum textual width is the
length of the longest non-null member. -/
theorem c8_enum_derived (values : List (Option String)) (s₀ : String)
    (h₀ : some s₀ ∈ values) :
    (EnumNS.null values = true ↔ none ∈ values) ∧
    ∃ m, EnumNS.max_length values = some m ∧
      (∀ s : String, some s ∈ values → s.length ≤ m) ∧
      (∃ s : String, some s ∈ values ∧ s.length = m) := by
  constructor
  · simp [EnumNS.null, List.any_eq_true]
  · have hmm : ∀ t : String, t ∈ values.filterMap id ↔ some t ∈ values := by
      intro t
      simp [List.mem_filterMap]
    have hne : values.filterMap id ≠ [] := by
      intro he
      have := (hmm s₀).mpr h₀
      rw [he] at this
      simp at this
    unfold EnumNS.max_length
    cases hl : values.filterMap id with
    | nil => exact absurd hl hne
    | cons s rest =>
      have h := foldl_max_length rest s.length
      refine ⟨rest.foldl (fun m t => Nat.max m t.length) s.length, rfl, ?_, ?_⟩
      · intro t ht
        have : t ∈ values.filterMap id := (hmm t).mpr ht
        rw [hl] at this
        rcases List.mem_cons.mp this with h1 | h1
        · cases h1; exact h.1
        · exact h.2.1 t h1
      · rcases h.2.2 with h1 | ⟨t, ht, h1⟩
        · refine ⟨s, ?_, h1.symm ▸ rfl⟩
          exact (hmm s).mp (hl ▸ List.mem_cons_self s rest)
        · refine ⟨t, ?_, h1.symm⟩
          exact (hmm t).mp (hl ▸ List.mem_cons_of_mem s ht)

/-- Witness for C8 at the spec's example set
`{"red", "green", "blue", None}`: nullable, and maximum width 5. -/
theorem c8_enum_derived_witness :
    EnumNS.null exEnumVals = true ∧
    EnumNS.max_length exEnumVals = some 5 ∧
    ((EnumNS.null exEnumVals = true ↔ none ∈ exEnumVals) ∧
      ∃ m, EnumNS.max_length exEnumVals = some m ∧
        (∀ s : String, some s ∈ exEnumVals → s.length ≤ m) ∧
        (∃ s : String, some s ∈ exEnumVals ∧ s.length = m)) :=
  ⟨by decide, by decide, c8_enum_derived exEnumVals "red" (by decide)⟩

/-! ### C7 — boolean inbound conversion -/

/-- C7 counterexample: the claim states that integers other than 0/1
fail with a type-mismatch error, but `value_to_field` accepts any
`bool` or `int` (`isinstance(value, (bool, int))`) and applies
`bool(value)`: the integer 2 converts successfully to `True`. -/
theorem c7_boolean_counterexample :
    JsonPy.value_to_field (Val.vint 2) exBool = .ok (.vbool true) := rfl

/-- C7 (amended): inbound conversion for a boolean field accepts a bool
or any integer, yielding `bool(value)` (zero maps to false, any nonzero
integer to true), and fails for every other non-null value; the failure
surfaces as `FieldValueError` at the deserialization boundary. -/
theorem c7_boolean_inbound (f : Fld) (hb : f.kind = Kind.boolean) :
    (∀ b, JsonPy.value_to_field (Val.vbool b) f = .ok (.vbool b)) ∧
    (∀ n : Int, JsonPy.value_to_field (Val.vint n) f = .ok (.vbool (decide (n ≠ 0)))) ∧
    (∀ v : Val, v ≠ Val.vnone → (∀ b, v ≠ Val.vbool b) → (∀ n : Int, v ≠ Val.vint n) →
      JsonPy.value_to_field v f = .error CErr.valueError) ∧
    (∀ mname a v, strStartsWith a "_" = false → v ≠ Val.vnone → (∀ b, v ≠ Val.vbool b) →
      (∀ n : Int, v ≠ Val.vint n) →
      JsonPy.deserialize mname [(a, f)] [(f.db_column, v)] false false =
        .error (.fieldValueError mname a f v)) := by
  have hconv : ∀ v : Val, v ≠ Val.vnone → (∀ b, v ≠ Val.vbool b) →
      (∀ n : Int, v ≠ Val.vint n) →
      JsonPy.value_to_field v f = .error CErr.valueError := by
    intro v hvn hvb hvi
    cases v with
    | vnone => exact absurd rfl hvn
    | vbool b => exact absurd rfl (hvb b)
    | vint n => exact absurd rfl (hvi n)
    | vfloat q => simp [JsonPy.value_to_field, hb]
    | vstr s => simp [JsonPy.value_to_field, hb]
    | vbytes bs => simp [JsonPy.value_to_field, hb]
    | vdatetime m => simp [JsonPy.value_to_field, hb]
    | vdate m => simp [JsonPy.value_to_field, hb]
    | vtime m => simp [JsonPy.value_to_field, hb]
  refine ⟨fun b => by simp [JsonPy.value_to_field, hb],
    fun n => by simp [JsonPy.value_to_field, hb], hconv, ?_⟩
  intro mname a v ha hvn hvb hvi
  have hmap : JsonPy.map_fields [(a, f)] false true false = [(f.db_column, (a, f))] := by
    have hkfk : f.kind ≠ Kind.foreignKey := by rw [hb]; decide
    simp [JsonPy.map_fields, JsonPy.iterfields, ha, hkfk, upsertA]
  unfold JsonPy.deserialize
  rw [hmap]
  unfold JsonPy.deserialize_aux
  simp [popA, hconv v hvn hvb hvi]

/-- Witness for C7's amended statement: a bool converts to itself, a
non-bool non-int value is rejected, and the rejection surfaces as
`FieldValueError` from `deserialize`. -/
theorem c7_boolean_inbound_witness :
    JsonPy.value_to_field (Val.vbool true) exBool = .ok (.vbool true) ∧
    JsonPy.value_to_field (Val.vstr "x") exBool = .error CErr.valueError ∧
    JsonPy.deserialize "M" [("flag", exBool)] [("flag", Val.vstr "x")] false false =
      .error (.fieldValueError "M" "flag" exBool (Val.vstr "x")) :=
  ⟨(c7_boolean_inbound exBool rfl).1 true,
   (c7_boolean_inbound exBool rfl).2.2.1 (Val.vstr "x") (by decide) (fun b h => by cases h)
     (fun n h => by cases h),
   (c7_boolean_inbound exBool rfl).2.2.2 "M" "flag" (Val.vstr "x") (by decide) (by decide)
     (fun b h => by cases h) (fun n h => by cases h)⟩

/-! ### C6 — foreign-key de-duplication -/

@[simp] theorem keysA_append {α : Type} (l₁ l₂ : List (String × α)) :
    keysA (l₁ ++ l₂) = keysA l₁ ++ keysA l₂ := List.map_append _ _ _

theorem fk_dict_go (fields : List (String × Fld)) :
    ∀ acc : List (String × Fld),
      (∀ p ∈ fields, p.1 ∉ keysA acc) → (fields.map Prod.fst).Nodup →
      fields.foldl
          (fun m af => if af.2.kind = Kind.foreignKey then upsertA m af.1 af.2 else m) acc
        = acc ++ fields.filter (fun af => decide (af.2.kind = Kind.foreignKey)) := by
  induction fields with
  | nil => intro acc _ _; simp
  | cons p rest ih =>
    intro acc hdisj hnd
    obtain ⟨a, fd⟩ := p
    simp only [List.map_cons, List.nodup_cons] at hnd
    simp only [List.foldl_cons]
    by_cases hk : fd.kind = Kind.foreignKey
    · rw [if_pos hk,
        upsertA_append_of_not_mem acc a fd (hdisj (a, fd) (List.mem_cons_self _ _))]
      rw [ih (acc ++ [(a, fd)]) ?_ hnd.2]
      · simp [List.filter_cons, hk]
      · intro p hp
        simp only [keysA_append, List.mem_append, keysA_cons, keysA_nil]
        rintro (h | h)
        · exact hdisj p (List.mem_cons_of_mem _ hp) h
        · simp only [List.mem_singleton] at h
          exact hnd.1 (h ▸ List.mem_map.mpr ⟨p, hp, rfl⟩)
    · rw [if_neg hk, ih acc (fun p hp => hdisj p (List.mem_cons_of_mem _ hp)) hnd.2]
      simp [List.filter_cons, hk]

theorem fk_dict_eq_filter (fields : List (String × Fld))
    (hnd : (fields.map Prod.fst).Nodup) :
    JsonPy.fk_dict fields
      = fields.filter (fun af => decide (af.2.kind = Kind.foreignKey)) := by
  have h := fk_dict_go fields [] (by simp) hnd
  simpa [JsonPy.fk_dict] using h

/-- C6: in `filter_fk_dupes`, a foreign-key descriptor bound to `A_id`
whose external key equals that of a foreign-key descriptor bound to `A`
is dropped, the `A` entry is kept (when it is not itself such a
shadow), and non-foreign-key entries pass through unaffected.  The
suffix test is expressed through the code's own operations
(`endswith('_id')` and the slice `[:-3]`). -/
theorem c6_fk_dedup (fields : List (String × Fld)) (A Aid : String) (g f : Fld)
    (hnd : (fields.map Prod.fst).Nodup)
    (hg : (A, g) ∈ fields) (hgfk : g.kind = Kind.foreignKey)
    (hf : (Aid, f) ∈ fields) (hffk : f.kind = Kind.foreignKey)
    (hend : strEndsWith Aid "_id" = true) (hdrop : strDropRight Aid 3 = A)
    (hcol : f.db_column = g.db_column)
    (hkeep : JsonPy.fk_dropped (JsonPy.fk_dict fields) (A, g) = false) :
    ((Aid, f) ∉ JsonPy.filter_fk_dupes fields) ∧
    ((A, g) ∈ JsonPy.filter_fk_dupes fields) ∧
    (∀ a : String, ∀ h : Fld, h.kind ≠ Kind.foreignKey →
      ((a, h) ∈ JsonPy.filter_fk_dupes fields ↔ (a, h) ∈ fields)) := by
  have hdict := fk_dict_eq_filter fields hnd
  have hndfk : (keysA (JsonPy.fk_dict fields)).Nodup := by
    rw [hdict]
    exact List.Nodup.sublist (List.Sublist.map Prod.fst (List.filter_sublist fields)) hnd
  have hgmem : (A, g) ∈ JsonPy.fk_dict fields := by
    rw [hdict]
    exact List.mem_filter.mpr ⟨hg, by simp [hgfk]⟩
  have hfmem : (Aid, f) ∈ JsonPy.fk_dict fields := by
    rw [hdict]
    exact List.mem_filter.mpr ⟨hf, by simp [hffk]⟩
  have hlook : lookupA (JsonPy.fk_dict fields) A = some g :=
    lookupA_of_mem_nodup _ _ _ hgmem hndfk
  have hdropAid : JsonPy.fk_dropped (JsonPy.fk_dict fields) (Aid, f) = true := by
    unfold JsonPy.fk_dropped
    rw [hend, hdrop, hlook]
    simp [hcol]
  refine ⟨?_, ?_, ?_⟩
  · intro hmem
    unfold JsonPy.filter_fk_dupes at hmem
    rcases List.mem_append.mp hmem with h | h
    · have := (List.mem_filter.mp h).2
      simp [hffk] at this
    · have := (List.mem_filter.mp h).2
      rw [hdropAid] at this
      simp at this
  · unfold JsonPy.filter_fk_dupes
    refine List.mem_append.mpr (Or.inr ?_)
    exact List.mem_filter.mpr ⟨hgmem, by rw [hkeep]; rfl⟩
  · intro a h hnfk
    unfold JsonPy.filter_fk_dupes
    constructor
    · intro hmem
      rcases List.mem_append.mp hmem with h1 | h1
      · exact (List.mem_filter.mp h1).1
      · have h2 := (List.mem_filter.mp h1).1
        rw [hdict] at h2
        have := (List.mem_filter.mp h2).2
        simp at this
        exact absurd this hnfk
    · intro hmem
      refine List.mem_append.mpr (Or.inl ?_)
      exact List.mem_filter.mpr ⟨hmem, by simp [hnfk]⟩

/-- The three-field example schema of the claim: a non-foreign-key
`name`, the relation attribute `owner` and its peewee-generated shadow
`owner_id`, both with external key `owner`. -/
def exC6Fields : List (String × Fld) := [("name", exChar), ("owner", exFk), ("owner_id", exFk)]

/-- Witness for C6 at the example schema: the `owner_id` entry is
dropped, the `owner` entry and the non-foreign-key `name` entry are
kept, and exactly one surviving entry carries the external key
`owner`. -/
theorem c6_fk_dedup_witness :
    (("owner_id", exFk) ∉ JsonPy.filter_fk_dupes exC6Fields) ∧
    (("owner", exFk) ∈ JsonPy.filter_fk_dupes exC6Fields) ∧
    (("name", exChar) ∈ JsonPy.filter_fk_dupes exC6Fields ↔ ("name", exChar) ∈ exC6Fields) ∧
    ((JsonPy.filter_fk_dupes exC6Fields).filter
        (fun af => decide (af.2.db_column = "owner"))).length = 1 :=
  ⟨(c6_fk_dedup exC6Fields "owner" "owner_id" exFk exFk (by decide) (by decide) (by decide)
      (by decide) (by decide) (by decide) (by decide) (by decide) (by decide)).1,
   (c6_fk_dedup exC6Fields "owner" "owner_id" exFk exFk (by decide) (by decide) (by decide)
      (by decide) (by decide) (by decide) (by decide) (by decide) (by decide)).2.1,
   (c6_fk_dedup exC6Fields "owner" "owner_id" exFk exFk (by decide) (by decide) (by decide)
      (by decide) (by decide) (by decide) (by decide) (by decide) (by decide)).2.2 "name" exChar
      (by decide),
   by decide⟩


/-! ### C10 — consumption of the input mapping -/

theorem popA_eq_none_iff {α : Type} (l : List (String × α)) (k : String) :
    popA l k = none ↔ k ∉ keysA l := by
  induction l with
  | nil => simp
  | cons p rest ih =>
    obtain ⟨k', v'⟩ := p
    simp only [keysA_cons, List.mem_cons]
    by_cases hk : k' = k
    · subst hk
      simp [popA]
    · cases hp : popA rest k with
      | none =>
        have h2 : k ∉ keysA rest := ih.mp hp
        simp [popA, if_neg hk, hp, h2, Ne.symm hk]
      | some vr =>
        have h2 : k ∈ keysA rest := by
          by_contra hcon
          rw [ih.mpr hcon] at hp
          cases hp
        simp [popA, if_neg hk, hp, h2]

theorem popA_some_eq {α : Type} (l : List (String × α)) (k : String) (v : α)
    (l' : List (String × α)) (hnd : (keysA l).Nodup) (h : popA l k = some (v, l')) :
    l' = l.filter (fun p => !decide (p.1 = k)) := by
  induction l generalizing l' with
  | nil => cases h
  | cons p rest ih =>
    obtain ⟨k', v'⟩ := p
    simp only [keysA_cons, List.nodup_cons] at hnd
    by_cases hk : k' = k
    · subst hk
      rw [show popA ((k', v') :: rest) k' = some (v', rest) from by simp [popA]] at h
      simp only [Option.some.injEq, Prod.mk.injEq] at h
      rw [← h.2]
      simp only [List.filter_cons, decide_eq_true_eq]
      rw [if_neg (by simp)]
      symm
      apply List.filter_eq_self.mpr
      intro p hp
      simp only [Bool.not_eq_true', decide_eq_false_iff_not]
      intro he
      exact hnd.1 (he ▸ List.mem_map.mpr ⟨p, hp, rfl⟩)
    · simp only [popA, if_neg hk] at h
      cases hp : popA rest k with
      | none =>
        rw [hp] at h
        cases h
      | some vr =>
        obtain ⟨v₂, rest'⟩ := vr
        simp only [hp, Option.some.injEq, Prod.mk.injEq] at h
        rw [← h.2]
        have := ih rest' hnd.2 (by rw [hp, h.1])
        rw [this]
        simp only [List.filter_cons]
        rw [if_pos (by simp [hk])]

theorem nodup_keysA_filter {α : Type} (l : List (String × α)) (p : String × α → Bool)
    (hnd : (keysA l).Nodup) : (keysA (l.filter p)).Nodup :=
  List.Nodup.sublist (List.Sublist.map Prod.fst (List.filter_sublist l)) hnd

theorem jsonpy_des_aux_consume (mname : String) (fm : List (String × (String × Fld))) :
    ∀ (dict : Dict) (record r : Record) (rem : Dict), (keysA dict).Nodup →
      JsonPy.deserialize_aux mname fm dict record = .ok (r, rem) →
      rem = dict.filter (fun p => !decide (p.1 ∈ keysA fm)) := by
  induction fm with
  | nil =>
    intro dict record r rem hnd h
    simp only [JsonPy.deserialize_aux, Except.ok.injEq, Prod.mk.injEq] at h
    rw [← h.2]
    simp
  | cons e rest ih =>
    obtain ⟨c, af⟩ := e
    intro dict record r rem hnd h
    simp only [JsonPy.deserialize_aux] at h
    cases hp : popA dict c with
    | none =>
      simp only [hp] at h
      have hcnot : c ∉ keysA dict := (popA_eq_none_iff _ _).mp hp
      by_cases hcond : (!af.2.null && decide (af.2.default = none)) = true
      · rw [if_pos hcond] at h; cases h
      · rw [if_neg hcond] at h
        rw [ih dict record r rem hnd h]
        apply List.filter_congr
        intro p hp'
        have hne : p.1 ≠ c := fun he => hcnot (he ▸ List.mem_map.mpr ⟨p, hp', rfl⟩)
        by_cases h2 : p.1 ∈ keysA rest <;> simp [h2, hne]
    | some vd =>
      obtain ⟨v, dict'⟩ := vd
      simp only [hp] at h
      have hd' : dict' = dict.filter (fun p => !decide (p.1 = c)) :=
        popA_some_eq dict c v dict' hnd hp
      have hnd' : (keysA dict').Nodup := hd' ▸ nodup_keysA_filter dict _ hnd
      cases hv : JsonPy.value_to_field v af.2 with
      | error e' =>
        cases e' <;> simp [hv] at h
      | ok fv =>
        simp only [hv] at h
        rw [ih dict' (setattr record af.1 fv) r rem hnd' h, hd', List.filter_filter]
        apply List.filter_congr
        intro p hp'
        by_cases h1 : p.1 = c <;> by_cases h2 : p.1 ∈ keysA rest <;> simp [h1, h2]

theorem jsonpy_patch_aux_consume (mname : String) (fm : List (String × (String × Fld))) :
    ∀ (dict : Dict) (record r : Record) (rem : Dict), (keysA dict).Nodup →
      JsonPy.patch_aux mname fm dict record = .ok (r, rem) →
      rem = dict.filter (fun p => !decide (p.1 ∈ keysA fm)) := by
  induction fm with
  | nil =>
    intro dict record r rem hnd h
    simp only [JsonPy.patch_aux, Except.ok.injEq, Prod.mk.injEq] at h
    rw [← h.2]
    simp
  | cons e rest ih =>
    obtain ⟨c, af⟩ := e
    intro dict record r rem hnd h
    simp only [JsonPy.patch_aux] at h
    cases hp : popA dict c with
    | none =>
      simp only [hp] at h
      have hcnot : c ∉ keysA dict := (popA_eq_none_iff _ _).mp hp
      rw [ih dict record r rem hnd h]
      apply List.filter_congr
      intro p hp'
      have hne : p.1 ≠ c := fun he => hcnot (he ▸ List.mem_map.mpr ⟨p, hp', rfl⟩)
      by_cases h2 : p.1 ∈ keysA rest <;> simp [h2, hne]
    | some vd =>
      obtain ⟨v, dict'⟩ := vd
      simp only [hp] at h
      have hd' : dict' = dict.filter (fun p => !decide (p.1 = c)) :=
        popA_some_eq dict c v dict' hnd hp
      have hnd' : (keysA dict').Nodup := hd' ▸ nodup_keysA_filter dict _ hnd
      cases hv : JsonPy.value_to_field v af.2 with
      | error e' =>
        cases e' <;> simp [hv] at h
      | ok fv =>
        simp only [hv] at h
        rw [ih dict' (setattr record af.1 fv) r rem hnd' h, hd', List.filter_filter]
        apply List.filter_congr
        intro p hp'
        by_cases h1 : p.1 = c <;> by_cases h2 : p.1 ∈ keysA rest <;> simp [h1, h2]

/-- C10: both `deserialize` and `patch` consume the caller's input
mapping: on success, every key matching a catalog field's `db_column`
has been popped and the remaining dictionary is exactly the input
restricted to the keys unrecognized by the schema. -/
theorem c10_input_consumption (mname : String) (model : List (String × Fld)) (dict : Dict)
    (record₀ : Record) (protected_ foreign_keys : Bool) (hnd : (keysA dict).Nodup) :
    (∀ r rem, JsonPy.deserialize mname model dict protected_ foreign_keys = .ok (r, rem) →
      rem = dict.filter (fun p =>
        !decide (p.1 ∈ keysA (JsonPy.map_fields model protected_ true foreign_keys)))) ∧
    (∀ r rem, JsonPy.patch mname model record₀ dict protected_ foreign_keys = .ok (r, rem) →
      rem = dict.filter (fun p =>
        !decide (p.1 ∈ keysA (JsonPy.map_fields model protected_ true foreign_keys)))) :=
  ⟨fun r rem h => jsonpy_des_aux_consume mname _ dict [] r rem hnd h,
   fun r rem h => jsonpy_patch_aux_consume mname _ dict record₀ r rem hnd h⟩

/-- Witness for C10: deserializing a mapping with keys `name` and
`extra` against the single-field schema `name` leaves exactly the
unrecognized key `extra` in the mapping. -/
theorem c10_input_consumption_witness :
    ([("extra", Val.vint 1)] : Dict)
      = ([("name", Val.vstr "x"), ("extra", Val.vint 1)] : Dict).filter (fun p =>
          !decide (p.1 ∈ keysA (JsonPy.map_fields [("name", exChar)] false true false))) :=
  (c10_input_consumption "M" [("name", exChar)]
      [("name", Val.vstr "x"), ("extra", Val.vint 1)] [] false false (by decide)).1
    [("name", Val.vstr "x")] [("extra", Val.vint 1)] (by decide)

/-! ### C4 — null handling -/

theorem jsonpy_des_aux_append (mname : String) (l₁ l₂ : List (String × (String × Fld))) :
    ∀ (dict : Dict) (record : Record),
      JsonPy.deserialize_aux mname (l₁ ++ l₂) dict record =
        match JsonPy.deserialize_aux mname l₁ dict record with
        | .ok (r, d) => JsonPy.deserialize_aux mname l₂ d r
        | .error e => .error e := by
  induction l₁ with
  | nil => intro dict record; simp [JsonPy.deserialize_aux]
  | cons e rest ih =>
    obtain ⟨c, af⟩ := e
    intro dict record
    simp only [List.cons_append, JsonPy.deserialize_aux]
    cases hp : popA dict c with
    | none =>
      by_cases hcond : (!af.2.null && decide (af.2.default = none)) = true
      · simp [hcond]
      · simp [hcond, ih]
    | some vd =>
      obtain ⟨v, d'⟩ := vd
      cases hv : JsonPy.value_to_field v af.2 with
      | ok fv => simp [hv, ih]
      | error e' => cases e' <;> simp [hv]

theorem jsonpy_des_aux_frame (mname : String) (fm : List (String × (String × Fld))) :
    ∀ (dict : Dict) (record r : Record) (rem : Dict),
      JsonPy.deserialize_aux mname fm dict record = .ok (r, rem) →
      ∀ x, x ∉ fm.map (fun e => e.2.1) → getattr r x = getattr record x := by
  induction fm with
  | nil =>
    intro dict record r rem h x _
    simp only [JsonPy.deserialize_aux, Except.ok.injEq, Prod.mk.injEq] at h
    rw [← h.1]
  | cons e rest ih =>
    obtain ⟨c, af⟩ := e
    intro dict record r rem h x hx
    simp only [List.map_cons, List.mem_cons, not_or] at hx
    simp only [JsonPy.deserialize_aux] at h
    cases hp : popA dict c with
    | none =>
      simp only [hp] at h
      by_cases hcond : (!af.2.null && decide (af.2.default = none)) = true
      · rw [if_pos hcond] at h; cases h
      · rw [if_neg hcond] at h
        exact ih dict record r rem h x hx.2
    | some vd =>
      obtain ⟨v, d'⟩ := vd
      simp only [hp] at h
      cases hv : JsonPy.value_to_field v af.2 with
      | error e' => cases e' <;> simp [hv] at h
      | ok fv =>
        simp only [hv] at h
        rw [ih d' (setattr record af.1 fv) r rem h x hx.2]
        exact getattr_setattr_other record af.1 x fv hx.1

theorem jsonpy_des_aux_no_null (mname : String) (fm : List (String × (String × Fld))) :
    ∀ (dict : Dict) (record : Record),
      JsonPy.deserialize_aux mname fm dict record ≠ .error .nullError := by
  induction fm with
  | nil => intro dict record h; cases h
  | cons e rest ih =>
    obtain ⟨c, af⟩ := e
    intro dict record h
    simp only [JsonPy.deserialize_aux] at h
    cases hp : popA dict c with
    | none =>
      simp only [hp] at h
      by_cases hcond : (!af.2.null && decide (af.2.default = none)) = true
      · rw [if_pos hcond] at h; cases h
      · rw [if_neg hcond] at h
        exact ih dict record h
    | some vd =>
      obtain ⟨v, d'⟩ := vd
      simp only [hp] at h
      cases hv : JsonPy.value_to_field v af.2 with
      | error e' => cases e' <;> simp [hv] at h
      | ok fv =>
        simp only [hv] at h
        exact ih d' (setattr record af.1 fv) h

theorem jsonpy_patch_aux_no_null (mname : String) (fm : List (String × (String × Fld))) :
    ∀ (dict : Dict) (record : Record),
      JsonPy.patch_aux mname fm dict record ≠ .error .nullError := by
  induction fm with
  | nil => intro dict record h; cases h
  | cons e rest ih =>
    obtain ⟨c, af⟩ := e
    intro dict record h
    simp only [JsonPy.patch_aux] at h
    cases hp : popA dict c with
    | none =>
      simp only [hp] at h
      exact ih dict record h
    | some vd =>
      obtain ⟨v, d'⟩ := vd
      simp only [hp] at h
      cases hv : JsonPy.value_to_field v af.2 with
      | error e' => cases e' <;> simp [hv] at h
      | ok fv =>
        simp only [hv] at h
        exact ih d' (setattr record af.1 fv) h

/-- C4: a null supplied for a non-nullable field makes `deserialize`
fail with `FieldNotNullable` carrying the record type, attribute and
field; the internal `NullError` signal never escapes `deserialize` (or
`patch`); and a null supplied for a nullable field yields a null
attribute on the resulting record.  The second and third parts place
the field anywhere in the catalog, assuming the fields before it
process without error. -/
theorem c4_null_handling :
    (∀ (mname : String) (model : List (String × Fld)) (dict : Dict) (record₀ : Record)
        (protected_ foreign_keys : Bool),
      JsonPy.deserialize mname model dict protected_ foreign_keys ≠ .error .nullError ∧
      JsonPy.patch mname model record₀ dict protected_ foreign_keys ≠ .error .nullError) ∧
    (∀ (mname : String) (model : List (String × Fld)) (protected_ foreign_keys : Bool)
        (fm₁ fm₂ : List (String × (String × Fld))) (c a : String) (f : Fld) (dict d₁ d₂ : Dict)
        (r₁ : Record),
      JsonPy.map_fields model protected_ true foreign_keys = fm₁ ++ (c, (a, f)) :: fm₂ →
      JsonPy.deserialize_aux mname fm₁ dict [] = .ok (r₁, d₁) →
      popA d₁ c = some (Val.vnone, d₂) →
      f.null = false →
      JsonPy.deserialize mname model dict protected_ foreign_keys =
        .error (.fieldNotNullable mname a f)) ∧
    (∀ (mname : String) (model : List (String × Fld)) (protected_ foreign_keys : Bool)
        (fm₁ fm₂ : List (String × (String × Fld))) (c a : String) (f : Fld)
        (dict d₁ d₂ d₃ : Dict) (r₁ r₂ : Record),
      JsonPy.map_fields model protected_ true foreign_keys = fm₁ ++ (c, (a, f)) :: fm₂ →
      JsonPy.deserialize_aux mname fm₁ dict [] = .ok (r₁, d₁) →
      popA d₁ c = some (Val.vnone, d₂) →
      f.null = true →
      JsonPy.deserialize_aux mname fm₂ d₂ (setattr r₁ a Val.vnone) = .ok (r₂, d₃) →
      a ∉ fm₂.map (fun e => e.2.1) →
      JsonPy.deserialize mname model dict protected_ foreign_keys = .ok (r₂, d₃) ∧
        getattr r₂ a = Val.vnone) := by
  refine ⟨?_, ?_, ?_⟩
  · intro mname model dict record₀ protected_ foreign_keys
    exact ⟨jsonpy_des_aux_no_null mname _ dict [], jsonpy_patch_aux_no_null mname _ dict record₀⟩
  · intro mname model protected_ foreign_keys fm₁ fm₂ c a f dict d₁ d₂ r₁ heq h₁ hpop hnn
    unfold JsonPy.deserialize
    rw [heq, jsonpy_des_aux_append, h₁]
    simp only [JsonPy.deserialize_aux, hpop]
    have hv : JsonPy.value_to_field Val.vnone f = .error .nullError := by
      simp [JsonPy.value_to_field, hnn]
    simp [hv]
  · intro mname model protected_ foreign_keys fm₁ fm₂ c a f dict d₁ d₂ d₃ r₁ r₂ heq h₁ hpop
      hnl h₂ ha
    have hres : JsonPy.deserialize mname model dict protected_ foreign_keys = .ok (r₂, d₃) := by
      unfold JsonPy.deserialize
      rw [heq, jsonpy_des_aux_append, h₁]
      simp only [JsonPy.deserialize_aux, hpop]
      have hv : JsonPy.value_to_field Val.vnone f = .ok .vnone := by
        simp [JsonPy.value_to_field, hnl]
      simp only [hv]
      exact h₂
    refine ⟨hres, ?_⟩
    rw [jsonpy_des_aux_frame mname fm₂ d₂ (setattr r₁ a Val.vnone) r₂ d₃ h₂ a ha]
    exact getattr_setattr_same r₁ a Val.vnone

/-- Witness for C4: a null for the non-nullable `flag` field raises
`FieldNotNullable`; a null for the nullable `note` field deserializes
successfully to a null attribute; neither call surfaces the internal
`NullError`. -/
theorem c4_null_handling_witness :
    (JsonPy.deserialize "M" [("flag", exBool)] [("flag", Val.vnone)] false false ≠
        .error .nullError ∧
      JsonPy.patch "M" [("flag", exBool)] [] [("flag", Val.vnone)] false false ≠
        .error .nullError) ∧
    JsonPy.deserialize "M" [("flag", exBool)] [("flag", Val.vnone)] false false =
      .error (.fieldNotNullable "M" "flag" exBool) ∧
    (JsonPy.deserialize "M" [("note", exCharN)] [("note", Val.vnone)] false false =
        .ok ([("note", Val.vnone)], []) ∧
      getattr [("note", Val.vnone)] "note" = Val.vnone) :=
  ⟨c4_null_handling.1 "M" [("flag", exBool)] [("flag", Val.vnone)] [] false false,
   c4_null_handling.2.1 "M" [("flag", exBool)] false false [] [] "flag" "flag" exBool
     [("flag", Val.vnone)] [("flag", Val.vnone)] [] [] rfl rfl rfl rfl,
   c4_null_handling.2.2 "M" [("note", exCharN)] false false [] [] "note" "note" exCharN
     [("note", Val.vnone)] [("note", Val.vnone)] [] [] [] [("note", Val.vnone)] rfl rfl rfl rfl
     rfl (by decide)⟩

/-! ### C1 and C3 — package deserializer: missing keys and strictness -/

theorem pkg_aux_append (mname : String) (dict : Dict) (patch : Bool)
    (allow deny : List String) (l₁ l₂ : List (String × Fld)) :
    ∀ (processed : List String) (record : Record),
      Pkg.deserialize_aux mname dict patch allow deny (l₁ ++ l₂) processed record =
        match Pkg.deserialize_aux mname dict patch allow deny l₁ processed record with
        | .ok (r, p) => Pkg.deserialize_aux mname dict patch allow deny l₂ p r
        | .error e => .error e := by
  induction l₁ with
  | nil => intro processed record; simp [Pkg.deserialize_aux]
  | cons e rest ih =>
    obtain ⟨a, f⟩ := e
    intro processed record
    simp only [List.cons_append, Pkg.deserialize_aux]
    by_cases h1 : (!allow.isEmpty && !allow.contains (Pkg.json_key f)) = true
    · rw [if_pos h1, if_pos h1]
      exact ih processed record
    · rw [if_neg h1, if_neg h1]
      by_cases h2 : (!deny.isEmpty && deny.contains (Pkg.json_key f)) = true
      · rw [if_pos h2, if_pos h2]
        exact ih processed record
      · rw [if_neg h2, if_neg h2]
        cases hl : lookupA dict (Pkg.json_key f) with
        | none =>
          simp only [hl]
          by_cases h3 : (!patch && decide (f.default = none) && !f.null) = true
          · rw [if_pos h3, if_pos h3]
          · rw [if_neg h3, if_neg h3]
            exact ih _ record
        | some v =>
          simp only [hl]
          cases hv : Pkg.converter f v with
          | ok fv =>
            simp only [hv]
            exact ih _ _
          | error e' => cases e' <;> simp [hv]

theorem pkg_aux_frame (mname : String) (dict : Dict) (patch : Bool)
    (allow deny : List String) (cat : List (String × Fld)) :
    ∀ (processed : List String) (record r : Record) (p : List String),
      Pkg.deserialize_aux mname dict patch allow deny cat processed record = .ok (r, p) →
      ∀ x, x ∉ cat.map Prod.fst → getattr r x = getattr record x := by
  induction cat with
  | nil =>
    intro processed record r p h x _
    simp only [Pkg.deserialize_aux, Except.ok.injEq, Prod.mk.injEq] at h
    rw [← h.1]
  | cons e rest ih =>
    obtain ⟨a, f⟩ := e
    intro processed record r p h x hx
    simp only [List.map_cons, List.mem_cons, not_or] at hx
    simp only [Pkg.deserialize_aux] at h
    by_cases h1 : (!allow.isEmpty && !allow.contains (Pkg.json_key f)) = true
    · rw [if_pos h1] at h
      exact ih processed record r p h x hx.2
    · rw [if_neg h1] at h
      by_cases h2 : (!deny.isEmpty && deny.contains (Pkg.json_key f)) = true
      · rw [if_pos h2] at h
        exact ih processed record r p h x hx.2
      · rw [if_neg h2] at h
        cases hl : lookupA dict (Pkg.json_key f) with
        | none =>
          simp only [hl] at h
          by_cases h3 : (!patch && decide (f.default = none) && !f.null) = true
          · rw [if_pos h3] at h; cases h
          · rw [if_neg h3] at h
            exact ih _ record r p h x hx.2
        | some v =>
          simp only [hl] at h
          cases hv : Pkg.converter f v with
          | error e' => cases e' <;> simp [hv] at h
          | ok fv =>
            simp only [hv] at h
            rw [ih _ (setattr record a fv) r p h x hx.2]
            exact getattr_setattr_other record a x fv hx.1

theorem pkg_aux_processed (mname : String) (dict : Dict) (patch : Bool)
    (allow deny : List String) (cat : List (String × Fld)) :
    ∀ (processed : List String) (record r : Record) (p : List String),
      Pkg.deserialize_aux mname dict patch allow deny cat processed record = .ok (r, p) →
      p = processed ++
        (cat.filter (fun e => Pkg.survives allow deny e.2)).map (fun e => Pkg.json_key e.2) := by
  induction cat with
  | nil =>
    intro processed record r p h
    simp only [Pkg.deserialize_aux, Except.ok.injEq, Prod.mk.injEq] at h
    rw [← h.2]
    simp
  | cons e rest ih =>
    obtain ⟨a, f⟩ := e
    intro processed record r p h
    simp only [Pkg.deserialize_aux] at h
    by_cases h1 : (!allow.isEmpty && !allow.contains (Pkg.json_key f)) = true
    · rw [if_pos h1] at h
      have hsurv : Pkg.survives allow deny f = false := by
        unfold Pkg.survives
        rw [h1]
        rfl
      rw [ih processed record r p h]
      simp [List.filter_cons, hsurv]
    · rw [if_neg h1] at h
      by_cases h2 : (!deny.isEmpty && deny.contains (Pkg.json_key f)) = true
      · rw [if_pos h2] at h
        have hsurv : Pkg.survives allow deny f = false := by
          unfold Pkg.survives
          rw [h2]
          simp
        rw [ih processed record r p h]
        simp [List.filter_cons, hsurv]
      · rw [if_neg h2] at h
        have hsurv : Pkg.survives allow deny f = true := by
          unfold Pkg.survives
          rw [Bool.not_eq_true] at h1 h2
          rw [h1, h2]
          rfl
        cases hl : lookupA dict (Pkg.json_key f) with
        | none =>
          simp only [hl] at h
          by_cases h3 : (!patch && decide (f.default = none) && !f.null) = true
          · rw [if_pos h3] at h; cases h
          · rw [if_neg h3] at h
            rw [ih _ record r p h]
            simp [List.filter_cons, hsurv]
        | some v =>
          simp only [hl] at h
          cases hv : Pkg.converter f v with
          | error e' => cases e' <;> simp [hv] at h
          | ok fv =>
            simp only [hv] at h
            rw [ih _ (setattr record a fv) r p h]
            simp [List.filter_cons, hsurv]

/-- C1: on a full deserialize, a surviving catalog field whose external
key is absent from the input, whose descriptor has no default and which
is not nullable raises `MissingKeyError(model, attribute, field, key)`;
during a patch the same absence raises nothing and leaves the existing
attribute value untouched.  The field is placed anywhere in the
catalog, assuming the fields before it process without error (and, for
the patch conclusion, that the rest of the call succeeds). -/
theorem c1_missing_key :
    (∀ (mname : String) (model : List (String × Fld)) (record₀ : Record) (dict : Dict)
        (allow deny : List String) (fk strict : Bool) (cat₁ cat₂ : List (String × Fld))
        (a : String) (f : Fld) (r₁ : Record) (p₁ : List String),
      Pkg.json_fields model fk = cat₁ ++ (a, f) :: cat₂ →
      Pkg.deserialize_aux mname dict false allow deny cat₁ [] record₀ = .ok (r₁, p₁) →
      Pkg.survives allow deny f = true →
      lookupA dict (Pkg.json_key f) = none →
      f.default = none → f.null = false →
      Pkg.deserialize mname model record₀ false dict allow deny fk strict =
        .error (.missingKey mname a f (Pkg.json_key f))) ∧
    (∀ (mname : String) (model : List (String × Fld)) (record₀ : Record) (dict : Dict)
        (allow deny : List String) (fk strict : Bool) (cat₁ cat₂ : List (String × Fld))
        (a : String) (f : Fld) (r₁ r₂ : Record) (p₁ p₂ : List String),
      Pkg.json_fields model fk = cat₁ ++ (a, f) :: cat₂ →
      Pkg.deserialize_aux mname dict true allow deny cat₁ [] record₀ = .ok (r₁, p₁) →
      Pkg.survives allow deny f = true →
      lookupA dict (Pkg.json_key f) = none →
      Pkg.deserialize_aux mname dict true allow deny cat₂ (p₁ ++ [Pkg.json_key f]) r₁ =
        .ok (r₂, p₂) →
      (strict = true → (Pkg.invalid_keys_of dict allow deny p₂).isEmpty = true) →
      a ∉ cat₂.map Prod.fst → a ∉ cat₁.map Prod.fst →
      Pkg.deserialize mname model record₀ true dict allow deny fk strict = .ok r₂ ∧
        getattr r₂ a = getattr record₀ a) := by
  constructor
  · intro mname model record₀ dict allow deny fk strict cat₁ cat₂ a f r₁ p₁ heq h₁ hsurv
      hlook hdef hnull
    rw [Pkg.survives, Bool.and_eq_true, Bool.not_eq_true', Bool.not_eq_true'] at hsurv
    have h1' : ¬((!allow.isEmpty && !allow.contains (Pkg.json_key f)) = true) := by
      rw [hsurv.1]; exact Bool.false_ne_true
    have h2' : ¬((!deny.isEmpty && deny.contains (Pkg.json_key f)) = true) := by
      rw [hsurv.2]; exact Bool.false_ne_true
    unfold Pkg.deserialize
    rw [heq, pkg_aux_append]
    simp only [h₁]
    simp only [Pkg.deserialize_aux]
    rw [if_neg h1', if_neg h2']
    simp only [hlook]
    have h3 : (!false && decide (f.default = none) && !f.null) = true := by
      rw [hdef, hnull]; rfl
    rw [if_pos h3]
  · intro mname model record₀ dict allow deny fk strict cat₁ cat₂ a f r₁ r₂ p₁ p₂ heq h₁
      hsurv hlook h₂ hstr ha2 ha1
    rw [Pkg.survives, Bool.and_eq_true, Bool.not_eq_true', Bool.not_eq_true'] at hsurv
    have h1' : ¬((!allow.isEmpty && !allow.contains (Pkg.json_key f)) = true) := by
      rw [hsurv.1]; exact Bool.false_ne_true
    have h2' : ¬((!deny.isEmpty && deny.contains (Pkg.json_key f)) = true) := by
      rw [hsurv.2]; exact Bool.false_ne_true
    have hframe : getattr r₂ a = getattr record₀ a := by
      rw [pkg_aux_frame mname dict true allow deny cat₂ _ r₁ r₂ p₂ h₂ a ha2]
      exact pkg_aux_frame mname dict true allow deny cat₁ [] record₀ r₁ p₁ h₁ a ha1
    refine ⟨?_, hframe⟩
    unfold Pkg.deserialize
    rw [heq, pkg_aux_append]
    simp only [h₁]
    simp only [Pkg.deserialize_aux]
    rw [if_neg h1', if_neg h2']
    simp only [hlook]
    have h3 : ¬((!true && decide (f.default = none) && !f.null) = true) := by simp
    rw [if_neg h3]
    simp only [h₂]
    cases strict with
    | false => rfl
    | true =>
      simp only [if_true]
      rw [if_pos (hstr rfl)]

/-- Witness for C1: deserializing an empty mapping against the
single-field schema `name` (required, no default) raises
`MissingKeyError`; patching an existing record with the same empty
mapping succeeds and leaves the attribute value `"v"` untouched. -/
theorem c1_missing_key_witness :
    Pkg.deserialize "M" [("name", exChar)] [] false [] [] [] false true =
      .error (.missingKey "M" "name" exChar "name") ∧
    (Pkg.deserialize "M" [("name", exChar)] [("name", Val.vstr "v")] true [] [] [] false true =
        .ok [("name", Val.vstr "v")] ∧
      getattr [("name", Val.vstr "v")] "name" = getattr [("name", Val.vstr "v")] "name") :=
  ⟨c1_missing_key.1 "M" [("name", exChar)] [] [] [] [] false true [] [] "name" exChar [] []
     rfl rfl rfl rfl rfl rfl,
   c1_missing_key.2 "M" [("name", exChar)] [("name", Val.vstr "v")] [] [] [] false true [] []
     "name" exChar [("name", Val.vstr "v")] [("name", Val.vstr "v")] [] ["name"]
     rfl rfl rfl rfl rfl (fun _ => by decide) (by decide) (by decide)⟩

/-- C3: when the per-field pass succeeds, the collected invalid-key set
consists exactly of the mapping keys not consumed by any surviving
catalog field — including keys excluded by the `allow`/`deny` sets;
with `strict=true` a non-empty collected set makes the call raise
`InvalidKeys` listing all such keys, and with `strict=false` the same
call succeeds, ignoring them. -/
theorem c3_strict_unknown_keys (mname : String) (model : List (String × Fld))
    (record₀ : Record) (patch : Bool) (dict : Dict) (allow deny : List String) (fk : Bool)
    (r : Record) (p : List String)
    (h : Pkg.deserialize_aux mname dict patch allow deny (Pkg.json_fields model fk) [] record₀
      = .ok (r, p)) :
    (Pkg.deserialize mname model record₀ patch dict allow deny fk false = .ok r) ∧
    (∀ k, k ∈ Pkg.invalid_keys_of dict allow deny p ↔
      (k ∈ keysA dict ∧
        ((allow ≠ [] ∧ k ∉ allow) ∨ (deny ≠ [] ∧ k ∈ deny) ∨
          ¬∃ e ∈ Pkg.json_fields model fk,
            Pkg.survives allow deny e.2 = true ∧ Pkg.json_key e.2 = k))) ∧
    (Pkg.invalid_keys_of dict allow deny p ≠ [] →
      Pkg.deserialize mname model record₀ patch dict allow deny fk true =
        .error (.invalidKeys (Pkg.invalid_keys_of dict allow deny p))) := by
  have hp := pkg_aux_processed mname dict patch allow deny (Pkg.json_fields model fk)
    [] record₀ r p h
  refine ⟨?_, ?_, ?_⟩
  · unfold Pkg.deserialize
    simp only [h]
    rfl
  · intro k
    rw [Pkg.invalid_keys_of, List.mem_filter]
    have hmemp : k ∈ p ↔
        ∃ e ∈ Pkg.json_fields model fk,
          Pkg.survives allow deny e.2 = true ∧ Pkg.json_key e.2 = k := by
      rw [hp]
      simp only [List.nil_append, List.mem_map]
      constructor
      · rintro ⟨e, he, hk⟩
        have he2 := List.mem_filter.mp he
        exact ⟨e, he2.1, he2.2, hk⟩
      · rintro ⟨e, he, hs, hk⟩
        exact ⟨e, List.mem_filter.mpr ⟨he, hs⟩, hk⟩
    constructor
    · rintro ⟨hk, hcond⟩
      refine ⟨hk, ?_⟩
      simp only [Bool.or_eq_true, Bool.and_eq_true, Bool.not_eq_true',
        decide_eq_false_iff_not] at hcond
      rcases hcond with (⟨hA, hB⟩ | ⟨hA, hB⟩) | hC
      · exact Or.inl ⟨by simpa using hA, by simpa using hB⟩
      · exact Or.inr (Or.inl ⟨by simpa using hA, by simpa using hB⟩)
      · exact Or.inr (Or.inr (fun hc => hC (hmemp.mpr hc)))
    · rintro ⟨hk, hcond⟩
      refine ⟨hk, ?_⟩
      simp only [Bool.or_eq_true, Bool.and_eq_true, Bool.not_eq_true',
        decide_eq_false_iff_not]
      rcases hcond with ⟨hA, hB⟩ | ⟨hA, hB⟩ | hC
      · exact Or.inl (Or.inl ⟨by simpa using hA, by simpa using hB⟩)
      · exact Or.inl (Or.inr ⟨by simpa using hA, by simpa using hB⟩)
      · exact Or.inr (fun hm => hC (hmemp.mp hm))
  · intro hne
    unfold Pkg.deserialize
    simp only [h]
    simp only [if_true]
    have hie : ¬((Pkg.invalid_keys_of dict allow deny p).isEmpty = true) :=
      fun hc => hne (List.isEmpty_iff.mp hc)
    rw [if_neg hie]

/-- The two-key example mapping of the claim: `name` is consumed by the
schema's only field, `bogus` is unrecognized. -/
def exC3Dict : Dict := [("name", Val.vstr "x"), ("bogus", Val.vint 1)]

/-- Witness for C3: with `strict=false` the call succeeds ignoring the
`bogus` key; with `strict=true` it raises `InvalidKeys` listing exactly
`bogus`. -/
theorem c3_strict_unknown_keys_witness :
    Pkg.deserialize "M" [("name", exChar)] [] false exC3Dict [] [] false false =
      .ok [("name", Val.vstr "x")] ∧
    Pkg.deserialize "M" [("name", exChar)] [] false exC3Dict [] [] false true =
      .error (.invalidKeys ["bogus"]) :=
  ⟨(c3_strict_unknown_keys "M" [("name", exChar)] [] false exC3Dict [] [] false
      [("name", Val.vstr "x")] ["name"] rfl).1,
   (c3_strict_unknown_keys "M" [("name", exChar)] [] false exC3Dict [] [] false
      [("name", Val.vstr "x")] ["name"] rfl).2.2 (by decide)⟩

/-! ### C5 — round trip -/

/-- Well-typedness of a stored attribute value for its field: the value
a record built by the engine holds for that field kind, non-null.  Blob
and foreign-key fields have no well-typed case here: foreign keys are
excluded from the round trip by the default flags, and blobs are the
round-trip counterexample. -/
def well_typed (f : Fld) (v : Val) : Bool :=
  match f.kind, v with
  | .boolean, .vbool _ => true
  | .integer, .vint _ => true
  | .primaryKey, .vint _ => true
  | .float, .vfloat _ => true
  | .decimal, .vfloat _ => true
  | .datetime, .vdatetime _ => true
  | .date, .vdate _ => true
  | .time, .vtime _ => true
  | .char, .vbool _ => true
  | .char, .vint _ => true
  | .char, .vfloat _ => true
  | .char, .vstr _ => true
  | .char, .vbytes _ => true
  | _, _ => false

/-- Total projection of `field_to_json`, used to state the serializer
lemmas; it agrees with `field_to_json` on well-typed values. -/
def json_out (f : Fld) (v : Val) : Val :=
  match JsonPy.field_to_json f v with
  | .ok j => j
  | .error _ => .vnone

theorem field_to_json_ok (f : Fld) (v : Val) (h : well_typed f v = true) :
    JsonPy.field_to_json f v = .ok (json_out f v) := by
  unfold json_out
  cases hk : f.kind <;> cases v <;>
    simp_all [well_typed, JsonPy.field_to_json, pyFloat]

theorem vtf_inverse (f : Fld) (v : Val) (h : well_typed f v = true) :
    JsonPy.value_to_field (json_out f v) f = .ok v := by
  cases hk : f.kind <;> cases v <;>
    simp_all [well_typed, json_out, JsonPy.field_to_json, JsonPy.value_to_field, pyFloat,
      pyInt, isoDecode_isoEncode]

theorem mem_upsertA {α : Type} (l : List (String × α)) (k : String) (v : α)
    (e : String × α) (h : e ∈ upsertA l k v) : e ∈ l ∨ e = (k, v) := by
  induction l with
  | nil =>
    simp only [upsertA, List.mem_singleton] at h
    exact Or.inr h
  | cons p rest ih =>
    obtain ⟨k', v'⟩ := p
    by_cases hk : k' = k
    · rw [upsertA, if_pos hk] at h
      rcases List.mem_cons.mp h with h1 | h1
      · exact Or.inr h1
      · exact Or.inl (List.mem_cons_of_mem _ h1)
    · rw [upsertA, if_neg hk] at h
      rcases List.mem_cons.mp h with h1 | h1
      · exact Or.inl (h1 ▸ List.mem_cons_self _ _)
      · rcases ih h1 with h2 | h2
        · exact Or.inl (List.mem_cons_of_mem _ h2)
        · exact Or.inr h2

theorem fold_upsert_key (l : List (String × Fld)) :
    ∀ acc : List (String × (String × Fld)),
      (∀ e ∈ acc, e.1 = e.2.2.db_column) →
      ∀ e ∈ l.foldl (fun m af => upsertA m af.2.db_column af) acc, e.1 = e.2.2.db_column := by
  induction l with
  | nil => intro acc hacc e he; exact hacc e he
  | cons af rest ih =>
    intro acc hacc e he
    simp only [List.foldl_cons] at he
    refine ih (upsertA acc af.2.db_column af) ?_ e he
    intro e' he'
    rcases mem_upsertA acc af.2.db_column af e' he' with h | h
    · exact hacc e' h
    · rw [h]

theorem map_fields_key (model : List (String × Fld)) (protected_ primary_key foreign_keys : Bool) :
    ∀ e ∈ JsonPy.map_fields model protected_ primary_key foreign_keys,
      e.1 = e.2.2.db_column := by
  unfold JsonPy.map_fields
  cases foreign_keys with
  | true => exact fold_upsert_key _ [] (by simp)
  | false => exact fold_upsert_key _ [] (by simp)

theorem jsonpy_ser_aux_eq (record : Record) (fm : List (String × (String × Fld))) :
    ∀ acc : Dict,
      (∀ e ∈ fm, well_typed e.2.2 (getattr record e.2.1) = true) →
      (∀ e ∈ fm, e.2.2.db_column ∉ keysA acc) →
      (fm.map (fun e => e.2.2.db_column)).Nodup →
      JsonPy.serialize_aux record [] [] true fm acc =
        .ok (acc ++
          fm.map (fun e => (e.2.2.db_column, json_out e.2.2 (getattr record e.2.1)))) := by
  induction fm with
  | nil => intro acc _ _ _; simp [JsonPy.serialize_aux]
  | cons e rest ih =>
    obtain ⟨c, af⟩ := e
    intro acc hwt hdisj hnd
    simp only [List.map_cons, List.nodup_cons] at hnd
    simp only [JsonPy.serialize_aux]
    rw [if_neg (by simp)]
    rw [if_pos (Or.inr trivial)]
    simp only [field_to_json_ok af.2 (getattr record af.1)
      (hwt (c, af) (List.mem_cons_self _ _))]
    rw [upsertA_append_of_not_mem acc af.2.db_column _
      (hdisj (c, af) (List.mem_cons_self _ _))]
    rw [ih (acc ++ [(af.2.db_column, json_out af.2 (getattr record af.1))]) ?_ ?_ hnd.2]
    · simp
    · intro e' he'
      exact hwt e' (List.mem_cons_of_mem _ he')
    · intro e' he'
      simp only [keysA_append, List.mem_append, keysA_cons, keysA_nil, List.mem_singleton,
        not_or]
      refine ⟨hdisj e' (List.mem_cons_of_mem _ he'), ?_⟩
      simp only [List.mem_cons, not_or] at *
      intro hcon
      exact hnd.1 (hcon ▸ List.mem_map.mpr ⟨e', he', rfl⟩)

theorem jsonpy_des_of_ser (mname : String) (r : Record) (fm : List (String × (String × Fld))) :
    ∀ rec₀ : Record,
      (fm.map (fun e => e.2.2.db_column)).Nodup →
      (∀ e ∈ fm, e.1 = e.2.2.db_column) →
      (fm.map (fun e => e.2.1)).Nodup →
      (∀ e ∈ fm, well_typed e.2.2 (getattr r e.2.1) = true) →
      ∃ r' : Record,
        JsonPy.deserialize_aux mname fm
            (fm.map (fun e => (e.2.2.db_column, json_out e.2.2 (getattr r e.2.1)))) rec₀ =
          .ok (r', []) ∧
        (∀ e ∈ fm, getattr r' e.2.1 = getattr r e.2.1) ∧
        (∀ x, x ∉ fm.map (fun e => e.2.1) → getattr r' x = getattr rec₀ x) := by
  induction fm with
  | nil =>
    intro rec₀ _ _ _ _
    exact ⟨rec₀, rfl, by simp, fun x _ => rfl⟩
  | cons e rest ih =>
    obtain ⟨c, af⟩ := e
    intro rec₀ hndc hkey hnda hwt
    simp only [List.map_cons, List.nodup_cons] at hndc hnda
    have hc : c = af.2.db_column := hkey (c, af) (List.mem_cons_self _ _)
    simp only [List.map_cons, JsonPy.deserialize_aux]
    have hpop : popA
        ((af.2.db_column, json_out af.2 (getattr r af.1)) ::
          rest.map (fun e => (e.2.2.db_column, json_out e.2.2 (getattr r e.2.1)))) c =
        some (json_out af.2 (getattr r af.1),
          rest.map (fun e => (e.2.2.db_column, json_out e.2.2 (getattr r e.2.1)))) := by
      simp [popA, hc]
    simp only [hpop]
    rw [vtf_inverse af.2 (getattr r af.1) (hwt (c, af) (List.mem_cons_self _ _))]
    obtain ⟨r', h1, h2, h3⟩ := ih (setattr rec₀ af.1 (getattr r af.1)) hndc.2
      (fun e' he' => hkey e' (List.mem_cons_of_mem _ he')) hnda.2
      (fun e' he' => hwt e' (List.mem_cons_of_mem _ he'))
    refine ⟨r', h1, ?_, ?_⟩
    · intro e' he'
      rcases List.mem_cons.mp he' with h4 | h4
      · subst h4
        rw [h3 af.1 hnda.1]
        exact getattr_setattr_same rec₀ af.1 (getattr r af.1)
      · exact h2 e' h4
    · intro x hx
      simp only [List.map_cons, List.mem_cons, not_or] at hx
      rw [h3 x hx.2]
      exact getattr_setattr_other rec₀ af.1 x _ hx.1

/-- The single-blob-field schema and record of the round-trip
counterexample. -/
def exC5BlobModel : List (String × Fld) := [("data", exBlob)]

/-- A record whose blob attribute holds the single byte 0. -/
def exC5BlobRec : Record := [("data", Val.vbytes [0])]

/-- C5 counterexample: for a record with a (non-null) blob field,
serializing emits the base64 encoding as a byte string
(`b64encode` returns bytes) and deserializing passes bytes through
unchanged, so the round trip yields the base64 bytes `"AA=="` instead
of the original byte 0 — the attributes differ. -/
theorem c5_round_trip_counterexample :
    JsonPy.serialize exC5BlobModel exC5BlobRec [] [] true false true false =
      .ok [("data", Val.vbytes [65, 65, 61, 61])] ∧
    JsonPy.deserialize "M" exC5BlobModel [("data", Val.vbytes [65, 65, 61, 61])] false false =
      .ok ([("data", Val.vbytes [65, 65, 61, 61])], []) ∧
    getattr [("data", Val.vbytes [65, 65, 61, 61])] "data" ≠ getattr exC5BlobRec "data" :=
  ⟨rfl, rfl, by decide⟩

/-- C5 (amended): for every record all of whose catalog attributes hold
non-null values of their field's type, and none of whose catalog fields
is a blob field, deserializing the serialization yields a record whose
every catalog attribute equals the corresponding attribute of the
original (well-typedness per kind, including the no-blob restriction,
is the `well_typed` predicate). -/
theorem c5_round_trip (mname : String) (model : List (String × Fld)) (r : Record)
    (hndc : ((JsonPy.map_fields model false true false).map (fun e => e.2.2.db_column)).Nodup)
    (hnda : ((JsonPy.map_fields model false true false).map (fun e => e.2.1)).Nodup)
    (hwt : ∀ e ∈ JsonPy.map_fields model false true false,
      well_typed e.2.2 (getattr r e.2.1) = true) :
    ∃ d : Dict, ∃ r' : Record,
      JsonPy.serialize model r [] [] true false true false = .ok d ∧
      JsonPy.deserialize mname model d false false = .ok (r', []) ∧
      ∀ e ∈ JsonPy.map_fields model false true false,
        getattr r' e.2.1 = getattr r e.2.1 := by
  have hser := jsonpy_ser_aux_eq r (JsonPy.map_fields model false true false) [] hwt
    (by simp) hndc
  obtain ⟨r', h1, h2, _⟩ := jsonpy_des_of_ser mname r
    (JsonPy.map_fields model false true false) [] hndc
    (map_fields_key model false true false) hnda hwt
  refine ⟨(JsonPy.map_fields model false true false).map
      (fun e => (e.2.2.db_column, json_out e.2.2 (getattr r e.2.1))), r', ?_, ?_, h2⟩
  · unfold JsonPy.serialize
    rw [hser]
    simp
  · unfold JsonPy.deserialize
    exact h1

/-- The three-field schema and matching record of the round-trip
witness: a boolean, an integer and a datetime field, all non-null. -/
def exC5Model : List (String × Fld) := [("flag", exBool), ("num", exInt), ("ts", exDT)]

/-- A well-typed record over `exC5Model`. -/
def exC5Rec : Record :=
  [("flag", Val.vbool true), ("num", Val.vint 5), ("ts", Val.vdatetime 37)]

/-- Witness for C5's amended statement at a concrete three-field
schema. -/
theorem c5_round_trip_witness :
    ∃ d : Dict, ∃ r' : Record,
      JsonPy.serialize exC5Model exC5Rec [] [] true false true false = .ok d ∧
      JsonPy.deserialize "M" exC5Model d false false = .ok (r', []) ∧
      ∀ e ∈ JsonPy.map_fields exC5Model false true false,
        getattr r' e.2.1 = getattr exC5Rec e.2.1 :=
  c5_round_trip "M" exC5Model exC5Rec (by decide) (by decide) (by decide)
